import Mathlib

/-!
Verification of the UDF descriptor-parsing and traversal core of dvdromcopy.

This file gives a shallow embedding, in Lean, of the Rust sources under
src/: the CRC and tag-checksum validators (src/crc.rs, src/udf_parser.rs),
the descriptor codec (src/udf.rs), the anchor / volume-descriptor-sequence
readers (src/udf_parser.rs, src/udf_high_level.rs), the sector cache
(src/cache.rs), the address resolver (src/logical_block_reader.rs) and the
directory walker (src/main.rs), together with theorems settling the spec
claims about them.

Conventions of the embedding:
* Byte buffers are `List Nat`; each element models a Rust u8 and is read
  modulo 256 (`byteAt`), so junk lists cannot make a value exceed its
  machine width.
* Machine arithmetic that can wrap is written with an explicit `% 2 ^ w`.
* Fallible Rust code returns `Except RErr α`; Rust panics (out-of-bounds
  slicing, `copy_from_slice` length mismatch, `unwrap` of `None`) are
  modelled by the extra error `RErr.panicked`.
-/

set_option maxRecDepth 100000

namespace Dvdromcopy

/-- Error type mirroring `UdfError` in src/udf_parser.rs, with one extra
constructor `panicked` standing for a Rust panic (which is not a value of
`UdfError` but an abnormal termination). -/
inductive RErr where
  | io
  | invalidDescriptorTag
  | invalidPartitionMap
  | bufferTooSmall
  | invalidOffset
  | invalidPartitionNumber
  | panicked
deriving Repr, DecidableEq

/-- Byte `i` of a buffer, as a u8 value (reads out of range give 0; every
use is guarded by the bounds the Rust code guarantees or checks). -/
def byteAt (l : List Nat) (i : Nat) : Nat := l.getD i 0 % 256

/-- Subslice `l[a..b]` of a byte buffer, each element normalised to u8. -/
def slice (l : List Nat) (a b : Nat) : List Nat :=
  ((l.drop a).take (b - a)).map (· % 256)

/-- Little-endian u16 at offset `i`, as in `u16::from_le_bytes`. -/
def le16 (l : List Nat) (i : Nat) : Nat := byteAt l i + 256 * byteAt l (i + 1)

/-- Little-endian u32 at offset `i`, as in `u32::from_le_bytes`. -/
def le32 (l : List Nat) (i : Nat) : Nat :=
  byteAt l i + 256 * byteAt l (i + 1) + 65536 * byteAt l (i + 2) +
    16777216 * byteAt l (i + 3)

/-- Little-endian u64 at offset `i`, as in `u64::from_le_bytes`. -/
def le64 (l : List Nat) (i : Nat) : Nat := le32 l i + 4294967296 * le32 l (i + 4)

/-- Little-endian bytes of a u16, as in `u16::to_le_bytes`. -/
def u16Bytes (n : Nat) : List Nat := [n % 256, n / 256 % 256]

/-- Little-endian bytes of a u32, as in `u32::to_le_bytes`. -/
def u32Bytes (n : Nat) : List Nat :=
  [n % 256, n / 256 % 256, n / 65536 % 256, n / 16777216 % 256]

/-! CRC-16 (src/crc.rs).  The Rust code instantiates the `crc` crate with
the parameters of CRC-16/CCITT-FALSE (width 16, poly 0x1021, init 0x0000,
refin false, refout false, xorout 0x0000, check 0x29b1); the functions
below are that algorithm written out: each input byte is xor-ed into the
high byte of the running register, followed by eight MSB-first polynomial
division steps. -/

/-- One MSB-first CRC division step on a 16-bit register. -/
def crcBit (c : Nat) : Nat :=
  if c &&& 0x8000 = 0 then c * 2 % 65536 else (c * 2 ^^^ 0x1021) % 65536

/-- Feed one byte into the CRC-16 register. -/
def crcByte (c b : Nat) : Nat := crcBit^[8] ((c ^^^ b % 256 * 256) % 65536)

/-- Calculate CRC-16 for a UDF descriptor, aka CRC-16/CCITT-FALSE
(`cksum` in src/crc.rs; init value 0x0000, no final xor). -/
def cksum (data : List Nat) : Nat := data.foldl crcByte 0

/-- ECMA-167 example vector: the CRC of the three bytes 70 6A 77 is 3299
(the unit test in src/crc.rs). -/
theorem cksum_ecma_example : cksum [0x70, 0x6a, 0x77] = 0x3299 := by decide

/-- Check value of the configured algorithm over ASCII "123456789": with
init 0x0000 (as `UDF_CRC_ALGO` sets) the result is 0x31c3.  (The `check`
field 0x29b1 recorded in src/crc.rs is the value for init 0xFFFF; the crc
crate does not use that field when computing, and the repository's own unit
test pins the init-0x0000 behaviour via the ECMA vector above.) -/
theorem cksum_check_value :
    cksum [0x31, 0x32, 0x33, 0x34, 0x35, 0x36, 0x37, 0x38, 0x39] = 0x31c3 := by
  decide

/-- Fold of `u8::wrapping_add` over a byte list starting from 0, as used by
`validate_descriptor_tag` in src/udf_parser.rs. -/
def wrapping_sum (l : List Nat) : Nat := l.foldl (fun a b => (a + b) % 256) 0

/-! DescriptorTag (src/udf.rs, struct `DescriptorTag`, 16 bytes). -/

/-- Header of every UDF descriptor, mirroring `DescriptorTag` in src/udf.rs.
The `reservedByte` field is the Rust field named with a leading underscore. -/
structure DescriptorTag where
  tag_identifier : Nat
  descriptor_version : Nat
  tag_checksum : Nat
  reservedByte : Nat
  tag_serial_number : Nat
  descriptor_crc : Nat
  descriptor_crc_length : Nat
  tag_location : Nat
deriving Repr, DecidableEq

instance : Inhabited DescriptorTag := ⟨⟨0, 0, 0, 0, 0, 0, 0, 0⟩⟩

/-- Size of a DescriptorTag in bytes. -/
def DescriptorTag.size : Nat := 16

/-- DescriptorTag::read in src/udf.rs: little-endian field decoding. -/
def DescriptorTag.read (bytes : List Nat) : DescriptorTag :=
  { tag_identifier := le16 bytes 0
    descriptor_version := le16 bytes 2
    tag_checksum := byteAt bytes 4
    reservedByte := byteAt bytes 5
    tag_serial_number := le16 bytes 6
    descriptor_crc := le16 bytes 8
    descriptor_crc_length := le16 bytes 10
    tag_location := le32 bytes 12 }

/-- DescriptorTag::write in src/udf.rs: it fills bytes 0..16 of the output
buffer; the embedding returns exactly those 16 bytes. -/
def DescriptorTag.write (t : DescriptorTag) : List Nat :=
  u16Bytes t.tag_identifier ++ u16Bytes t.descriptor_version ++
    [t.tag_checksum % 256, t.reservedByte % 256] ++
    u16Bytes t.tag_serial_number ++ u16Bytes t.descriptor_crc ++
    u16Bytes t.descriptor_crc_length ++ u32Bytes t.tag_location

/-- validate_descriptor_tag in src/udf_parser.rs: recompute the 8-bit tag
checksum over bytes 0-3 and 5-15 with wrapping u8 addition and compare with
the `tag_checksum` field; then, if `descriptor_crc_length` is positive,
compare the CRC-16 of the bytes after the 16-byte header (truncated at the
end of the buffer, as the Rust `end.min(full_descriptor.len())` does) with
the `descriptor_crc` field. -/
def validate_descriptor_tag (tag : DescriptorTag) (full_descriptor : List Nat) :
    Bool :=
  let tag_checksum :=
    wrapping_sum (slice full_descriptor 0 4 ++ slice full_descriptor 5 16)
  if tag.tag_checksum ≠ tag_checksum then false
  else
    let start := DescriptorTag.size
    let stop := start + tag.descriptor_crc_length
    let checked_bytes :=
      slice full_descriptor start (min stop full_descriptor.length)
    if 0 < tag.descriptor_crc_length ∧ cksum checked_bytes ≠ tag.descriptor_crc
    then false
    else true

theorem foldl_add_mod (l : List Nat) (a : Nat) (ha : a < 256) :
    l.foldl (fun x b => (x + b) % 256) a = (a + l.sum) % 256 := by
  induction l generalizing a with
  | nil => simpa using (Nat.mod_eq_of_lt ha).symm
  | cons b t ih =>
    simp only [List.foldl_cons, List.sum_cons]
    rw [ih _ (Nat.mod_lt _ (by norm_num))]
    omega

theorem wrapping_sum_eq (l : List Nat) : wrapping_sum l = l.sum % 256 := by
  simpa using foldl_add_mod l 0 (by norm_num)

/-- C1: descriptor-tag validation accepts a buffer if and only if the 8-bit
`tag_checksum` field equals the sum modulo 256 of bytes 0-3 and 5-15 of the
16-byte tag, and, whenever `descriptor_crc_length` is positive, the
CRC-16/CCITT-FALSE (poly 0x1021, init 0x0000, no reflection, xorout 0x0000)
of the `descriptor_crc_length` bytes immediately after the 16-byte tag
header equals the `descriptor_crc` field; any mismatch in either check
causes rejection.  The buffer is assumed to contain at least the tag and
the CRC-covered bytes, which is what every caller guarantees. -/
theorem validate_descriptor_tag_spec (tag : DescriptorTag) (full : List Nat)
    (h16 : 16 ≤ full.length)
    (hcrc : 16 + tag.descriptor_crc_length ≤ full.length) :
    validate_descriptor_tag tag full = true ↔
      (tag.tag_checksum = ((slice full 0 4).sum + (slice full 5 16).sum) % 256 ∧
       (0 < tag.descriptor_crc_length →
         cksum (slice full 16 (16 + tag.descriptor_crc_length)) =
           tag.descriptor_crc)) := by
  have hmin : (16 + tag.descriptor_crc_length) ⊓ full.length =
      16 + tag.descriptor_crc_length := min_eq_left hcrc
  unfold validate_descriptor_tag
  simp only [DescriptorTag.size, hmin, wrapping_sum_eq, List.sum_append]
  split_ifs with h1 h2
  · simp only [Bool.false_eq_true, false_iff]
    intro h
    exact h1 h.1
  · simp only [Bool.false_eq_true, false_iff]
    intro h
    exact h2.2 (h.2 h2.1)
  · simp only [true_iff]
    push_neg at h1 h2
    exact ⟨h1, h2⟩

/-- Witness for C1 at a concrete input: the all-zero 16-byte tag buffer
(checksum 0 matches, crc length 0) is accepted. -/
theorem validate_descriptor_tag_spec_witness :
    (16 ≤ (List.replicate 16 0 : List Nat).length ∧
      16 + (DescriptorTag.read (List.replicate 16 0)).descriptor_crc_length ≤
        (List.replicate 16 0 : List Nat).length) ∧
    (validate_descriptor_tag (DescriptorTag.read (List.replicate 16 0))
        (List.replicate 16 0) = true ↔
      ((DescriptorTag.read (List.replicate 16 0)).tag_checksum =
        ((slice (List.replicate 16 0) 0 4).sum +
          (slice (List.replicate 16 0) 5 16).sum) % 256 ∧
       (0 < (DescriptorTag.read (List.replicate 16 0)).descriptor_crc_length →
         cksum (slice (List.replicate 16 0) 16
            (16 + (DescriptorTag.read (List.replicate 16 0)).descriptor_crc_length)) =
           (DescriptorTag.read (List.replicate 16 0)).descriptor_crc))) :=
  ⟨⟨by decide, by decide⟩,
    validate_descriptor_tag_spec _ _ (by decide) (by decide)⟩

/-! OSTA Compressed Unicode codec (module `osta` in src/udf_parser.rs).
Rust `String`s are modelled as `List Char` (Lean `Char`, like Rust `char`,
is a Unicode scalar value); `decode` builds the list of pushed characters
and `encode` the list of pushed bytes. -/

namespace osta

/-- Rust `char::from_u32`: `some` exactly on Unicode scalar values. -/
def char_from_u32 (n : Nat) : Option Char :=
  if h : n.isValidChar then some (Char.ofNatAux n h) else none

/-- Decode loop for compression ID 8: each byte is one Latin-1 codepoint,
stop at the first 0 byte (`bytes[i] as char`). -/
def decode8 : List Nat → List Char
  | [] => []
  | b :: rest => if b % 256 = 0 then [] else Char.ofNat (b % 256) :: decode8 rest

/-- Decode loop for compression ID 16: big-endian 16-bit units, stop at
0x0000, units that are not scalar values (surrogates) are dropped; a
trailing lone byte is ignored (the Rust loop requires `i + 1 < len`). -/
def decode16 : List Nat → List Char
  | b1 :: b2 :: rest =>
    let unicode := b1 % 256 * 256 + b2 % 256
    if unicode = 0 then []
    else
      match char_from_u32 unicode with
      | some c => c :: decode16 rest
      | none => decode16 rest
  | _ => []

/-- osta::decode in src/udf_parser.rs. -/
def decode (bytes : List Nat) : List Char :=
  match bytes with
  | [] => []
  | compression_id :: rest =>
    if compression_id % 256 = 8 then decode8 rest
    else if compression_id % 256 = 16 then decode16 rest
    else []

/-- osta::encode in src/udf_parser.rs: choose the 16-bit form when any
codepoint exceeds 0xFF; `c as u8` / `c as u16` truncate, hence the explicit
moduli; a terminator is appended. -/
def encode (s : List Char) : List Nat :=
  let needs_16bit := s.any fun c => 255 < c.toNat
  if needs_16bit then
    16 :: ((s.flatMap fun c => [c.toNat % 65536 / 256, c.toNat % 65536 % 256]) ++ [0, 0])
  else
    8 :: ((s.map fun c => c.toNat % 256) ++ [0])

theorem char_from_u32_toNat (c : Char) : char_from_u32 c.toNat = some c := by
  have hv : c.toNat.isValidChar := c.valid
  have h2 : Char.ofNatAux c.toNat hv = c := by
    conv_rhs => rw [← Char.ofNat_toNat c]
    unfold Char.ofNat
    rw [dif_pos hv]
  rw [char_from_u32, dif_pos hv, h2]

theorem decode8_encoded (s : List Char)
    (h : ∀ c ∈ s, c.toNat ≠ 0 ∧ c.toNat ≤ 255) :
    decode8 ((s.map fun c => c.toNat % 256) ++ [0]) = s := by
  induction s with
  | nil => rfl
  | cons c t ih =>
    obtain ⟨hc0, hc255⟩ := h c (List.mem_cons_self c t)
    have hmod : c.toNat % 256 % 256 = c.toNat := by omega
    simp only [List.map_cons, List.cons_append, decode8, hmod]
    rw [if_neg hc0, Char.ofNat_toNat]
    simp only [List.cons.injEq, true_and, List.append_eq]
    exact ih fun d hd => h d (List.mem_cons_of_mem _ hd)

theorem decode16_encoded (s : List Char)
    (h : ∀ c ∈ s, c.toNat ≠ 0 ∧ c.toNat ≤ 65535) :
    decode16 ((s.flatMap fun c => [c.toNat % 65536 / 256, c.toNat % 65536 % 256]) ++ [0, 0]) = s := by
  induction s with
  | nil => rfl
  | cons c t ih =>
    obtain ⟨hc0, hc65535⟩ := h c (List.mem_cons_self c t)
    have hlist : ((c :: t).flatMap fun c => [c.toNat % 65536 / 256, c.toNat % 65536 % 256]) ++ [0, 0]
        = c.toNat % 65536 / 256 :: c.toNat % 65536 % 256 ::
          ((t.flatMap fun c => [c.toNat % 65536 / 256, c.toNat % 65536 % 256]) ++ [0, 0]) := by
      simp
    rw [hlist]
    have hu : c.toNat % 65536 / 256 % 256 * 256 + c.toNat % 65536 % 256 % 256 = c.toNat := by
      omega
    simp only [decode16, hu]
    rw [if_neg hc0, char_from_u32_toNat]
    simp only [List.cons.injEq, true_and]
    exact ih fun d hd => h d (List.mem_cons_of_mem _ hd)

end osta

/-- C4 counterexample: the OSTA round trip fails on concrete inputs the
claim quantifies over.  For the one-character string containing NUL the
encoder emits the terminator-valued byte 0 and the decoder stops before it,
returning the empty string; for the one-character string containing
U+10000, `c as u16` truncates the codepoint to 0 and the decoder again
returns the empty string. -/
theorem osta_round_trip_cex :
    osta.decode (osta.encode [Char.ofNat 0]) ≠ [Char.ofNat 0] ∧
    osta.decode (osta.encode [Char.ofNat 65536]) ≠ [Char.ofNat 65536] := by
  decide

/-- C4 amended: if every codepoint of the string is nonzero and in the
Basic Multilingual Plane (at most 0xFFFF), decode after encode is the
identity; and — for every string whatsoever, with no restriction on its
codepoints — the encoder writes compression ID 8 exactly when every
codepoint is at most 0xFF, and ID 16 otherwise. -/
theorem osta_round_trip_amended (s : List Char) :
    ((∀ c ∈ s, c.toNat ≠ 0 ∧ c.toNat ≤ 65535) → osta.decode (osta.encode s) = s) ∧
    ((osta.encode s).head? = some 8 ↔ ∀ c ∈ s, c.toNat ≤ 255) ∧
    ((osta.encode s).head? = some 16 ↔ ¬ ∀ c ∈ s, c.toNat ≤ 255) := by
  by_cases h16 : ∃ c ∈ s, 255 < c.toNat
  · have hany : (s.any fun c => 255 < c.toNat) = true := by
      simpa [List.any_eq_true] using h16
    have hnall : ¬ ∀ c ∈ s, c.toNat ≤ 255 := by
      intro hall
      obtain ⟨c, hc, hlt⟩ := h16
      exact absurd (hall c hc) (by omega)
    have hhead : (osta.encode s).head? = some 16 := by
      simp [osta.encode, hany]
    refine ⟨?_, ?_, ?_⟩
    · intro h
      simp only [osta.encode, hany, if_true, osta.decode]
      exact osta.decode16_encoded s h
    · rw [hhead]
      constructor
      · intro hcontr
        simp at hcontr
      · intro hall
        exact absurd hall hnall
    · rw [hhead]
      exact ⟨fun _ => hnall, fun _ => rfl⟩
  · have hall : ∀ c ∈ s, c.toNat ≤ 255 := by
      intro c hc
      by_contra hlt
      exact h16 ⟨c, hc, by omega⟩
    have hany : (s.any fun c => 255 < c.toNat) = false := by
      simp only [List.any_eq_false, decide_eq_true_eq]
      intro c hc
      have := hall c hc
      omega
    have hhead : (osta.encode s).head? = some 8 := by
      simp [osta.encode, hany]
    refine ⟨?_, ?_, ?_⟩
    · intro h
      simp only [osta.encode, hany, Bool.false_eq_true, if_false, osta.decode]
      exact osta.decode8_encoded s fun c hc => ⟨(h c hc).1, hall c hc⟩
    · rw [hhead]
      exact ⟨fun _ => hall, fun _ => rfl⟩
    · rw [hhead]
      constructor
      · intro hcontr
        simp at hcontr
      · intro hnall
        exact absurd hall hnall

/-- Witness for C4 (amended) at concrete strings: on "Az" the round trip
holds (its nonzero-BMP hypothesis discharged concretely) and the 8-bit form
is chosen; on the string containing the astral codepoint U+10000 — outside
the round-trip conjunct's hypothesis — the 16-bit form is chosen. -/
theorem osta_round_trip_amended_witness :
    ((∀ c ∈ [Char.ofNat 65, Char.ofNat 122], c.toNat ≠ 0 ∧ c.toNat ≤ 65535) ∧
     osta.decode (osta.encode [Char.ofNat 65, Char.ofNat 122]) = [Char.ofNat 65, Char.ofNat 122] ∧
     ((osta.encode [Char.ofNat 65, Char.ofNat 122]).head? = some 8 ↔
       ∀ c ∈ [Char.ofNat 65, Char.ofNat 122], c.toNat ≤ 255)) ∧
    ((osta.encode [Char.ofNat 65536]).head? = some 16 ↔
      ¬ ∀ c ∈ [Char.ofNat 65536], c.toNat ≤ 255) :=
  ⟨⟨by decide,
    (osta_round_trip_amended [Char.ofNat 65, Char.ofNat 122]).1 (by decide),
    (osta_round_trip_amended [Char.ofNat 65, Char.ofNat 122]).2.1⟩,
   (osta_round_trip_amended [Char.ofNat 65536]).2.2⟩

/-! Partition maps (src/udf.rs, `PartitionMap` and friends). -/

/-- GenericPartitionMapHeader in src/udf.rs. -/
structure GenericPartitionMapHeader where
  partition_map_type : Nat
  partition_map_length : Nat
deriving Repr, DecidableEq

/-- Type1PartitionMap in src/udf.rs (ECMA-167 10.7.2). -/
structure Type1PartitionMap where
  header : GenericPartitionMapHeader
  volume_seq_number : Nat
  partition_number : Nat
deriving Repr, DecidableEq

/-- Type2PartitionMap in src/udf.rs; `reserved1` and
`partition_type_identifier` are kept as raw byte lists of lengths 2 and 32. -/
structure Type2PartitionMap where
  header : GenericPartitionMapHeader
  reserved1 : List Nat
  partition_type_identifier : List Nat
deriving Repr, DecidableEq

/-- PartitionMap in src/udf.rs: Type 1, Type 2 and the opaque arm storing
the raw map bytes (header included). -/
inductive PartitionMap where
  | type1 : Type1PartitionMap → PartitionMap
  | type2 : Type2PartitionMap → PartitionMap
  | other : GenericPartitionMapHeader → List Nat → PartitionMap
deriving Repr, DecidableEq

/-- PartitionMap::read in src/udf.rs.  All `io::Error` returns are modelled
as `RErr.io`. -/
def PartitionMap.read (bytes : List Nat) : Except RErr PartitionMap :=
  if bytes.length < 2 then .error .io
  else
    let map_type := byteAt bytes 0
    let map_length := byteAt bytes 1
    if bytes.length < map_length then .error .io
    else
      let header : GenericPartitionMapHeader := ⟨map_type, map_length⟩
      if map_type = 1 then
        if map_length ≠ 6 then .error .io
        else .ok (.type1 ⟨header, le16 bytes 2, le16 bytes 4⟩)
      else if map_type = 2 then
        if map_length ≠ 64 then .error .io
        else .ok (.type2 ⟨header, slice bytes 2 4, slice bytes 4 36⟩)
      else .ok (.other header (slice bytes 0 map_length))

/-- Rust `bytes[i] = v` on a byte buffer (all call sites are within the
bounds checked just before). -/
def store (buf : List Nat) (i v : Nat) : List Nat := buf.set i (v % 256)

/-- Rust `buf[a..b].copy_from_slice(&src)`: panics unless the two slices
have the same length (and the range is in bounds). -/
def copy_from_slice (buf : List Nat) (a b : Nat) (src : List Nat) :
    Except RErr (List Nat) :=
  if a ≤ b ∧ b ≤ buf.length ∧ b - a = src.length then
    .ok (buf.take a ++ src.map (· % 256) ++ buf.drop b)
  else .error .panicked

/-- PartitionMap::write in src/udf.rs.  Note that for Type 2 the Rust code
executes `bytes[2..64].copy_from_slice(&map.partition_type_identifier)`,
copying a 32-byte array into a 62-byte slice. -/
def PartitionMap.write (m : PartitionMap) (bytes : List Nat) :
    Except RErr (List Nat) :=
  match m with
  | .type1 map =>
    if bytes.length < 6 then .error .io
    else do
      let b0 := store bytes 0 map.header.partition_map_type
      let b1 := store b0 1 map.header.partition_map_length
      let b2 ← copy_from_slice b1 2 4 (u16Bytes map.volume_seq_number)
      let b3 ← copy_from_slice b2 4 6 (u16Bytes map.partition_number)
      .ok b3
  | .type2 map =>
    if bytes.length < 64 then .error .io
    else do
      let b0 := store bytes 0 map.header.partition_map_type
      let b1 := store b0 1 map.header.partition_map_length
      let b2 ← copy_from_slice b1 2 64 map.partition_type_identifier
      .ok b2
  | .other _ data =>
    if bytes.length < data.length then .error .io
    else copy_from_slice bytes 0 data.length data

/-- PartitionMap::get_length in src/udf.rs. -/
def PartitionMap.get_length : PartitionMap → Nat
  | .type1 _ => 6
  | .type2 _ => 64
  | .other header _ => header.partition_map_length

/-- C5: the descriptor-codec round trip `decode(encode(r)) == r` fails for
the Type 2 partition-map arm: `PartitionMap::write` panics (slice length
mismatch: `bytes[2..64]`, 62 bytes, against the 32-byte
`partition_type_identifier`), so no byte buffer is produced at all.  The
input below is precisely the record obtained by decoding a well-formed
64-byte Type 2 map of zeros. -/
theorem partition_map_write_type2_panics :
    PartitionMap.read (2 :: 64 :: List.replicate 62 0) =
      .ok (.type2 ⟨⟨2, 64⟩, [0, 0], List.replicate 32 0⟩) ∧
    PartitionMap.write (.type2 ⟨⟨2, 64⟩, [0, 0], List.replicate 32 0⟩)
        (List.replicate 64 0) = .error .panicked := by
  exact ⟨rfl, rfl⟩

/-- Supporting fact: the Type 1 arm does round-trip, so the write bug is
specific to Type 2. -/
theorem partition_map_type1_round_trip :
    (PartitionMap.write (.type1 ⟨⟨1, 6⟩, 3, 7⟩) (List.replicate 6 0)).bind
        PartitionMap.read = .ok (.type1 ⟨⟨1, 6⟩, 3, 7⟩) := rfl


/-! Fixed-layout ECMA-167 records (src/udf.rs).  Each `read` mirrors the
field-by-field little-endian decoding of the Rust `read` of the same name;
raw byte fields are kept as byte lists. -/

/-- ExtentAd in src/udf.rs (ECMA-167 7.1 extent descriptor). -/
structure ExtentAd where
  length_bytes : Nat
  location_sector : Nat
deriving Repr, DecidableEq

instance : Inhabited ExtentAd := ⟨⟨0, 0⟩⟩

/-- ExtentAd::read. -/
def ExtentAd.read (bytes : List Nat) : ExtentAd := ⟨le32 bytes 0, le32 bytes 4⟩

/-- CharSpec in src/udf.rs (OSTA CS0 charspec, 64 bytes). -/
structure CharSpec where
  character_set_type : Nat
  character_set_info : List Nat
deriving Repr, DecidableEq

instance : Inhabited CharSpec := ⟨⟨0, []⟩⟩

/-- CharSpec::read (the argument is the 64-byte field slice). -/
def CharSpec.read (bytes : List Nat) : CharSpec :=
  ⟨byteAt bytes 0, slice bytes 1 64⟩

/-- EntityID in src/udf.rs (32 bytes). -/
structure EntityID where
  flags : Nat
  identifier : List Nat
  identifier_suffix : List Nat
deriving Repr, DecidableEq

instance : Inhabited EntityID := ⟨⟨0, [], []⟩⟩

/-- EntityID::read (the argument is the 32-byte field slice). -/
def EntityID.read (bytes : List Nat) : EntityID :=
  ⟨byteAt bytes 0, slice bytes 1 24, slice bytes 24 32⟩

/-- Timestamp in src/udf.rs (12 bytes). -/
structure Timestamp where
  type_and_timezone : Nat
  year : Nat
  month : Nat
  day : Nat
  hour : Nat
  minute : Nat
  second : Nat
  centiseconds : Nat
  hundreds_of_microseconds : Nat
  microseconds : Nat
deriving Repr, DecidableEq

instance : Inhabited Timestamp := ⟨⟨0, 0, 0, 0, 0, 0, 0, 0, 0, 0⟩⟩

/-- Timestamp::read (the argument is the 12-byte field slice). -/
def Timestamp.read (bytes : List Nat) : Timestamp :=
  ⟨le16 bytes 0, le16 bytes 2, byteAt bytes 4, byteAt bytes 5, byteAt bytes 6,
    byteAt bytes 7, byteAt bytes 8, byteAt bytes 9, byteAt bytes 10,
    byteAt bytes 11⟩

/-- LbAddr in src/udf.rs (6 bytes, packed, decoded field by field). -/
structure LbAddr where
  logical_block_number : Nat
  partition_reference_number : Nat
deriving Repr, DecidableEq

instance : Inhabited LbAddr := ⟨⟨0, 0⟩⟩

/-- LbAddr::read. -/
def LbAddr.read (bytes : List Nat) : LbAddr := ⟨le32 bytes 0, le16 bytes 4⟩

/-- LongAd in src/udf.rs (16 bytes). -/
structure LongAd where
  extent_length_and_type : Nat
  extent_location : LbAddr
  implementation_use : List Nat
deriving Repr, DecidableEq

instance : Inhabited LongAd := ⟨⟨0, default, []⟩⟩

/-- LongAd::read. -/
def LongAd.read (bytes : List Nat) : LongAd :=
  ⟨le32 bytes 0, LbAddr.read (slice bytes 4 10), slice bytes 10 16⟩

/-- LongAd::extent_length_bytes: the low 30 bits. -/
def LongAd.extent_length_bytes (ad : LongAd) : Nat :=
  ad.extent_length_and_type &&& 0x3FFFFFFF

/-- ShortAllocationDescriptor in src/udf.rs (8 bytes). -/
structure ShortAllocationDescriptor where
  extent_length_and_type : Nat
  extent_location : Nat
deriving Repr, DecidableEq

instance : Inhabited ShortAllocationDescriptor := ⟨⟨0, 0⟩⟩

/-- ShortAllocationDescriptor::read. -/
def ShortAllocationDescriptor.read (bytes : List Nat) :
    ShortAllocationDescriptor :=
  ⟨le32 bytes 0, le32 bytes 4⟩

/-- ShortAllocationDescriptor::extent_length_bytes: the low 30 bits. -/
def ShortAllocationDescriptor.extent_length_bytes
    (ad : ShortAllocationDescriptor) : Nat :=
  ad.extent_length_and_type &&& 0x3FFFFFFF

/-- AnchorVolumeDescriptorPointer in src/udf.rs (512 bytes). -/
structure AnchorVolumeDescriptorPointer where
  tag : DescriptorTag
  main_volume_descriptor_sequence_location : ExtentAd
  reserve_volume_descriptor_sequence_location : ExtentAd
  reserved : List Nat
deriving Repr, DecidableEq

/-- AnchorVolumeDescriptorPointer::read. -/
def AnchorVolumeDescriptorPointer.read (bytes : List Nat) :
    AnchorVolumeDescriptorPointer :=
  ⟨DescriptorTag.read (slice bytes 0 16), ExtentAd.read (slice bytes 16 24),
    ExtentAd.read (slice bytes 24 32), slice bytes 32 512⟩

/-- PrimaryVolumeDescriptor in src/udf.rs (512 bytes). -/
structure PrimaryVolumeDescriptor where
  tag : DescriptorTag
  volume_descriptor_sequence_number : Nat
  primary_volume_descriptor_number : Nat
  volume_identifier : List Nat
  volume_sequence_number : Nat
  maximum_volume_sequence_number : Nat
  interchange_level : Nat
  maximum_interchange_level : Nat
  character_set_list : Nat
  maximum_character_set_list : Nat
  volume_set_identifier : List Nat
  descriptor_character_set : CharSpec
  explanatory_character_set : CharSpec
  volume_abstract : ExtentAd
  volume_copyright_notice : ExtentAd
  application_identifier : EntityID
  recording_date_and_time : Timestamp
  implementation_identifier : EntityID
  implementation_use : List Nat
  predecessor_volume_descriptor_sequence_location : Nat
  flags : Nat
  reserved : List Nat
deriving Repr, DecidableEq

/-- PrimaryVolumeDescriptor::read in src/udf.rs. -/
def PrimaryVolumeDescriptor.read (bytes : List Nat) :
    PrimaryVolumeDescriptor :=
  { tag := DescriptorTag.read (slice bytes 0 16)
    volume_descriptor_sequence_number := le32 bytes 16
    primary_volume_descriptor_number := le32 bytes 20
    volume_identifier := slice bytes 24 56
    volume_sequence_number := le16 bytes 56
    maximum_volume_sequence_number := le16 bytes 58
    interchange_level := le16 bytes 60
    maximum_interchange_level := le16 bytes 62
    character_set_list := le32 bytes 64
    maximum_character_set_list := le32 bytes 68
    volume_set_identifier := slice bytes 72 200
    descriptor_character_set := CharSpec.read (slice bytes 200 264)
    explanatory_character_set := CharSpec.read (slice bytes 264 328)
    volume_abstract := ExtentAd.read (slice bytes 328 336)
    volume_copyright_notice := ExtentAd.read (slice bytes 336 344)
    application_identifier := EntityID.read (slice bytes 344 376)
    recording_date_and_time := Timestamp.read (slice bytes 376 388)
    implementation_identifier := EntityID.read (slice bytes 388 420)
    implementation_use := slice bytes 420 484
    predecessor_volume_descriptor_sequence_location := le32 bytes 484
    flags := le16 bytes 488
    reserved := slice bytes 490 512 }

/-- Size in bytes of a PrimaryVolumeDescriptor. -/
def PrimaryVolumeDescriptor.size : Nat := 512

/-- LogicalVolumeDescriptor in src/udf.rs (fixed part, 440 bytes). -/
structure LogicalVolumeDescriptor where
  tag : DescriptorTag
  volume_descriptor_sequence_number : Nat
  descriptor_character_set : CharSpec
  logical_volume_identifier : List Nat
  logical_block_size : Nat
  domain_identifier : EntityID
  logical_volume_contents_use : List Nat
  map_table_length : Nat
  number_of_partition_maps : Nat
  implementation_identifier : EntityID
  implementation_use : List Nat
  integrity_sequence_extent : ExtentAd
deriving Repr, DecidableEq

instance : Inhabited LogicalVolumeDescriptor :=
  ⟨⟨default, 0, default, [], 0, default, [], 0, 0, default, [], default⟩⟩

/-- LogicalVolumeDescriptor::read in src/udf.rs (expects the 440-byte
fixed part). -/
def LogicalVolumeDescriptor.read (bytes : List Nat) :
    LogicalVolumeDescriptor :=
  { tag := DescriptorTag.read (slice bytes 0 16)
    volume_descriptor_sequence_number := le32 bytes 16
    descriptor_character_set := CharSpec.read (slice bytes 20 84)
    logical_volume_identifier := slice bytes 84 212
    logical_block_size := le32 bytes 212
    domain_identifier := EntityID.read (slice bytes 216 248)
    logical_volume_contents_use := slice bytes 248 264
    map_table_length := le32 bytes 264
    number_of_partition_maps := le32 bytes 268
    implementation_identifier := EntityID.read (slice bytes 272 304)
    implementation_use := slice bytes 304 432
    integrity_sequence_extent := ExtentAd.read (slice bytes 432 440) }

/-- Size in bytes of the fixed part of a LogicalVolumeDescriptor. -/
def LogicalVolumeDescriptor.size : Nat := 440

/-- PartitionDescriptor in src/udf.rs (512 bytes). -/
structure PartitionDescriptor where
  tag : DescriptorTag
  volume_descriptor_sequence_number : Nat
  partition_flags : Nat
  partition_number : Nat
  partition_contents : EntityID
  partition_contents_use : List Nat
  access_type : Nat
  partition_starting_location : Nat
  partition_length : Nat
  implementation_identifier : EntityID
  implementation_use : List Nat
  reserved : List Nat
deriving Repr, DecidableEq

instance : Inhabited PartitionDescriptor :=
  ⟨⟨default, 0, 0, 0, default, [], 0, 0, 0, default, [], []⟩⟩

/-- PartitionDescriptor::read in src/udf.rs. -/
def PartitionDescriptor.read (bytes : List Nat) : PartitionDescriptor :=
  { tag := DescriptorTag.read (slice bytes 0 16)
    volume_descriptor_sequence_number := le32 bytes 16
    partition_flags := le16 bytes 20
    partition_number := le16 bytes 22
    partition_contents := EntityID.read (slice bytes 24 56)
    partition_contents_use := slice bytes 56 184
    access_type := le32 bytes 184
    partition_starting_location := le32 bytes 188
    partition_length := le32 bytes 192
    implementation_identifier := EntityID.read (slice bytes 196 228)
    implementation_use := slice bytes 228 356
    reserved := slice bytes 356 512 }

/-! Address resolver (src/logical_block_reader.rs). -/

/-- Standard DVD block size (DVDCSS_BLOCK_SIZE in src/dvdcss_sys.rs). -/
def DVDCSS_BLOCK_SIZE : Nat := 2048

/-- Lookup in a `BTreeMap` modelled as an association list (first match). -/
def btGet {α : Type} : List (Nat × α) → Nat → Option α
  | [], _ => none
  | (k, v) :: rest, key => if k = key then some v else btGet rest key

/-- Insert into a `BTreeMap` modelled as an association list: replace the
existing binding for the key, or append a new one. -/
def btInsert {α : Type} : List (Nat × α) → Nat → α → List (Nat × α)
  | [], key, v => [(key, v)]
  | (k, w) :: rest, key, v =>
    if k = key then (k, v) :: rest else (k, w) :: btInsert rest key v

/-- long_ad_to_sector_number in src/logical_block_reader.rs.  The Rust
expression is `pd.partition_starting_location +
long_ad.logical_block_number * lvd.logical_block_size / DVDCSS_BLOCK_SIZE`
in u32 arithmetic; the explicit `% 2 ^ 32` model the u32 width. -/
def long_ad_to_sector_number (logical_volume_descriptor : LogicalVolumeDescriptor)
    (partition_descriptors : List (Nat × PartitionDescriptor))
    (long_ad : LongAd) : Option Nat :=
  match btGet partition_descriptors
      long_ad.extent_location.partition_reference_number with
  | some partition_descriptor =>
    some ((partition_descriptor.partition_starting_location +
      long_ad.extent_location.logical_block_number *
        logical_volume_descriptor.logical_block_size % 4294967296 /
        DVDCSS_BLOCK_SIZE) % 4294967296)
  | none => none

/-- Formula of claim C3 as the spec words it, for comparison with the
source function: `partition_starting_location + logical_block_number *
(logical_block_size / 2048)`. -/
def long_ad_to_sector_number_claim
    (logical_volume_descriptor : LogicalVolumeDescriptor)
    (partition_descriptors : List (Nat × PartitionDescriptor))
    (long_ad : LongAd) : Option Nat :=
  match btGet partition_descriptors
      long_ad.extent_location.partition_reference_number with
  | some partition_descriptor =>
    some (partition_descriptor.partition_starting_location +
      long_ad.extent_location.logical_block_number *
        (logical_volume_descriptor.logical_block_size / 2048))
  | none => none

/-- C3 counterexample: with `logical_block_size = 1024` (not a multiple of
2048) and `logical_block_number = 2`, the code returns sector
`0 + 2 * 1024 / 2048 = 1` while the formula of the claim gives
`0 + 2 * (1024 / 2048) = 0`. -/
theorem long_ad_to_sector_number_claim_cex :
    long_ad_to_sector_number
        { (default : LogicalVolumeDescriptor) with logical_block_size := 1024 }
        [(0, default)] { (default : LongAd) with extent_location := ⟨2, 0⟩ } =
      some 1 ∧
    long_ad_to_sector_number_claim
        { (default : LogicalVolumeDescriptor) with logical_block_size := 1024 }
        [(0, default)] { (default : LongAd) with extent_location := ⟨2, 0⟩ } =
      some 0 := ⟨rfl, rfl⟩

/-- C3 amended: if the partition reference is not a key of the table the
resolver returns `none`; if it is bound to `pd` then (in the absence of u32
overflow) it returns `pd.partition_starting_location +
logical_block_number * logical_block_size / 2048`, where the product is
divided by 2048 after the multiplication (not `logical_block_size / 2048`
first, as the original claim had it). -/
theorem long_ad_to_sector_number_amended
    (lvd : LogicalVolumeDescriptor)
    (pds : List (Nat × PartitionDescriptor)) (long_ad : LongAd) :
    (btGet pds long_ad.extent_location.partition_reference_number = none →
      long_ad_to_sector_number lvd pds long_ad = none) ∧
    (∀ pd, btGet pds long_ad.extent_location.partition_reference_number = some pd →
      long_ad.extent_location.logical_block_number * lvd.logical_block_size <
        4294967296 →
      pd.partition_starting_location +
        long_ad.extent_location.logical_block_number * lvd.logical_block_size /
          2048 < 4294967296 →
      long_ad_to_sector_number lvd pds long_ad =
        some (pd.partition_starting_location +
          long_ad.extent_location.logical_block_number *
            lvd.logical_block_size / 2048)) := by
  constructor
  · intro hnone
    simp [long_ad_to_sector_number, hnone]
  · intro pd hsome hmul hadd
    simp only [long_ad_to_sector_number, hsome, DVDCSS_BLOCK_SIZE]
    rw [Nat.mod_eq_of_lt hmul, Nat.mod_eq_of_lt hadd]

/-- Witness for C3 (amended) at a concrete input: one-entry partition
table, everything zero. -/
theorem long_ad_to_sector_number_amended_witness :
    long_ad_to_sector_number default [(0, default)] default =
      some ((default : PartitionDescriptor).partition_starting_location +
        (default : LongAd).extent_location.logical_block_number *
          (default : LogicalVolumeDescriptor).logical_block_size / 2048) :=
  (long_ad_to_sector_number_amended default [(0, default)] default).2
    default rfl (by decide) (by decide)


/-! Anchor discovery (src/udf_parser.rs, `UdfParser`).  The parser owns a
seekable byte stream; the embedding carries the stream contents and
addresses reads by absolute position, which is what seek-then-read_exact
amounts to on an error-free stream. -/

/-- Standard logical sector size for UDF (LOGICAL_SECTOR_SIZE). -/
def LOGICAL_SECTOR_SIZE : Nat := 2048

/-- UdfParser in src/udf_parser.rs: reader contents, sector size and raw
data offset. -/
structure UdfParser where
  src : List Nat
  sector_size : Nat
  data_offset : Nat

/-- Seek to `pos` and `read_exact` a buffer of `len` bytes: fails with an
IO error (UnexpectedEof) when fewer than `len` bytes remain. -/
def UdfParser.read_exact_at (p : UdfParser) (pos len : Nat) :
    Except RErr (List Nat) :=
  if len = 0 then .ok []
  else if pos + len ≤ p.src.length then .ok (slice p.src pos (pos + len))
  else .error .io

/-- Byte position of a sector (seek_to_sector in src/udf_parser.rs):
`sector * sector_size + data_offset`. -/
def UdfParser.sector_pos (p : UdfParser) (sector : Nat) : Nat :=
  sector * p.sector_size + p.data_offset

/-- get_total_sectors in src/udf_parser.rs:
`((stream_length - data_offset) / sector_size) as u32`.  The embedding
assumes `data_offset ≤ stream_length` (Nat subtraction; the u64 subtraction
cannot underflow for the parsers the program builds) and models the
`as u32` cast with `% 2 ^ 32`. -/
def UdfParser.get_total_sectors (p : UdfParser) : Nat :=
  (p.src.length - p.data_offset) / p.sector_size % 4294967296

/-- read_anchor_at_sector in src/udf_parser.rs: read one 2048-byte buffer
at the sector, decode an AnchorVolumeDescriptorPointer, and validate its
tag; note that the Rust code does not inspect `tag_identifier`. -/
def UdfParser.read_anchor_at_sector (p : UdfParser) (sector : Nat) :
    Except RErr AnchorVolumeDescriptorPointer := do
  let buf ← p.read_exact_at (p.sector_pos sector) LOGICAL_SECTOR_SIZE
  let anchor := AnchorVolumeDescriptorPointer.read buf
  if validate_descriptor_tag anchor.tag buf then .ok anchor
  else .error .invalidDescriptorTag

/-- read_anchor in src/udf_parser.rs: try sector 256, then N - 256, then
N - 1, where N = get_total_sectors; the subtractions are u32 (wrapping in
a release build), written with an explicit modulus. -/
def UdfParser.read_anchor (p : UdfParser) :
    Except RErr AnchorVolumeDescriptorPointer :=
  match p.read_anchor_at_sector 256 with
  | .ok anchor => .ok anchor
  | .error _ =>
    match p.read_anchor_at_sector
        ((p.get_total_sectors + 4294967296 - 256) % 4294967296) with
    | .ok anchor => .ok anchor
    | .error _ =>
      p.read_anchor_at_sector ((p.get_total_sectors + 4294967296 - 1) % 4294967296)

/-- Concrete stream for the C6 counterexample: 2304 bytes, all zero except
a descriptor tag at byte 256 with tag_identifier 5, descriptor_version 2
and the matching checksum 7. -/
def cexAnchorSrc : List Nat :=
  List.replicate 256 0 ++ [5, 0, 2, 0, 7] ++ List.replicate 2043 0

/-- Parser over `cexAnchorSrc` with sector_size 1 and data_offset 0. -/
def cexAnchorParser : UdfParser := { src := cexAnchorSrc, sector_size := 1, data_offset := 0 }

/-- Length of the counterexample stream. -/
theorem cexAnchorSrc_length : cexAnchorSrc.length = 2304 := by
  simp only [cexAnchorSrc, List.length_append, List.length_cons,
    List.length_replicate]
  norm_num

/-- The anchor record stored at byte 256 of the counterexample stream. -/
def cexAnchorValue : AnchorVolumeDescriptorPointer :=
  AnchorVolumeDescriptorPointer.read (slice cexAnchorSrc 256 2304)

theorem cexAnchor_attempt :
    cexAnchorParser.read_anchor_at_sector 256 = .ok cexAnchorValue := by
  have hread : cexAnchorParser.read_exact_at (cexAnchorParser.sector_pos 256)
      LOGICAL_SECTOR_SIZE = .ok (slice cexAnchorSrc 256 2304) := by
    simp only [UdfParser.read_exact_at, UdfParser.sector_pos, LOGICAL_SECTOR_SIZE,
      cexAnchorParser]
    rw [cexAnchorSrc_length]
    norm_num
  unfold UdfParser.read_anchor_at_sector
  rw [hread]
  rfl

theorem cexAnchor_read_anchor :
    cexAnchorParser.read_anchor = .ok cexAnchorValue := by
  unfold UdfParser.read_anchor
  rw [cexAnchor_attempt]

/-- C6 counterexample: the claim says an anchor attempt succeeds exactly
when the tag validates AND `tag_identifier = 2`; but on this stream the
first attempt (sector 256) succeeds although the stored tag has
`tag_identifier = 5`: the code never checks the identifier. -/
theorem read_anchor_claim_cex :
    (UdfParser.read_anchor cexAnchorParser).map (fun a => a.tag.tag_identifier) =
      .ok 5 ∧ (5 : Nat) ≠ 2 := by
  constructor
  · rw [cexAnchor_read_anchor]
    rfl
  · decide

theorem read_anchor_at_sector_eq (p : UdfParser) (s : Nat) :
    p.read_anchor_at_sector s =
      if p.sector_pos s + 2048 ≤ p.src.length then
        (if validate_descriptor_tag
            (AnchorVolumeDescriptorPointer.read
              (slice p.src (p.sector_pos s) (p.sector_pos s + 2048))).tag
            (slice p.src (p.sector_pos s) (p.sector_pos s + 2048)) = true
         then Except.ok (AnchorVolumeDescriptorPointer.read
            (slice p.src (p.sector_pos s) (p.sector_pos s + 2048)))
         else Except.error RErr.invalidDescriptorTag)
      else Except.error RErr.io := by
  unfold UdfParser.read_anchor_at_sector UdfParser.read_exact_at
  simp only [LOGICAL_SECTOR_SIZE]
  rw [if_neg (by norm_num : ¬ (2048 : Nat) = 0)]
  by_cases hr : p.sector_pos s + 2048 ≤ p.src.length
  · rw [if_pos hr, if_pos hr]
    rfl
  · rw [if_neg hr, if_neg hr]
    rfl

/-- C6 amended: anchor discovery tries sector 256, then N - 256, then
N - 1 (u32-wrapping subtractions, N = (source_length - data_offset) /
sector_size as u32); an attempt at sector s succeeds exactly when the
2048-byte read fits in the stream and the descriptor tag of the decoded
anchor validates (the tag_identifier is NOT inspected); `read_anchor`
returns the anchor of the first succeeding attempt, and the error of the
third attempt when all three fail. -/
theorem read_anchor_amended (p : UdfParser) :
    (∀ s,
      (∃ a, p.read_anchor_at_sector s = Except.ok a) ↔
        (p.sector_pos s + 2048 ≤ p.src.length ∧
          validate_descriptor_tag
            (AnchorVolumeDescriptorPointer.read
              (slice p.src (p.sector_pos s) (p.sector_pos s + 2048))).tag
            (slice p.src (p.sector_pos s) (p.sector_pos s + 2048)) = true)) ∧
    (∀ a, p.read_anchor_at_sector 256 = Except.ok a →
      p.read_anchor = Except.ok a) ∧
    (∀ e a, p.read_anchor_at_sector 256 = Except.error e →
      p.read_anchor_at_sector
          ((p.get_total_sectors + 4294967296 - 256) % 4294967296) =
        Except.ok a →
      p.read_anchor = Except.ok a) ∧
    (∀ e1 e2, p.read_anchor_at_sector 256 = Except.error e1 →
      p.read_anchor_at_sector
          ((p.get_total_sectors + 4294967296 - 256) % 4294967296) =
        Except.error e2 →
      p.read_anchor =
        p.read_anchor_at_sector
          ((p.get_total_sectors + 4294967296 - 1) % 4294967296)) := by
  refine ⟨?_, ?_, ?_, ?_⟩
  · intro s
    rw [read_anchor_at_sector_eq]
    by_cases hr : p.sector_pos s + 2048 ≤ p.src.length
    · rw [if_pos hr]
      by_cases hv : validate_descriptor_tag
          (AnchorVolumeDescriptorPointer.read
            (slice p.src (p.sector_pos s) (p.sector_pos s + 2048))).tag
          (slice p.src (p.sector_pos s) (p.sector_pos s + 2048)) = true
      · rw [if_pos hv]
        exact ⟨fun _ => ⟨hr, hv⟩, fun _ => ⟨_, rfl⟩⟩
      · rw [if_neg hv]
        constructor
        · intro hcontr
          obtain ⟨a, ha⟩ := hcontr
          exact absurd ha (by simp)
        · intro hcontr
          exact absurd hcontr.2 hv
    · rw [if_neg hr]
      constructor
      · intro hcontr
        obtain ⟨a, ha⟩ := hcontr
        exact absurd ha (by simp)
      · intro hcontr
        exact absurd hcontr.1 hr
  · intro a h1
    simp only [UdfParser.read_anchor, h1]
  · intro e a h1 h2
    simp only [UdfParser.read_anchor, h1, h2]
  · intro e1 e2 h1 h2
    simp only [UdfParser.read_anchor, h1, h2]

/-- Witness for C6 (amended): on the concrete stream of the counterexample
the first attempt succeeds and `read_anchor` returns its anchor. -/
theorem read_anchor_amended_witness :
    UdfParser.read_anchor cexAnchorParser = Except.ok cexAnchorValue :=
  (read_anchor_amended cexAnchorParser).2.1 _ cexAnchor_attempt


/-! Volume-descriptor-sequence reading (src/udf_parser.rs `UdfParser` impl
and src/udf_high_level.rs). -/

/-- Tag identifier constants (the `TAG_IDENTIFIER` consts in src/udf.rs). -/
def PrimaryVolumeDescriptor.TAG_IDENTIFIER : Nat := 1

/-- Tag identifier of a PartitionDescriptor. -/
def PartitionDescriptor.TAG_IDENTIFIER : Nat := 5

/-- Tag identifier of a LogicalVolumeDescriptor. -/
def LogicalVolumeDescriptor.TAG_IDENTIFIER : Nat := 6

/-- Tag identifier of a TerminatingDescriptor. -/
def TerminatingDescriptor.TAG_IDENTIFIER : Nat := 8

/-- read_primary_volume_descriptor in src/udf_parser.rs: read a buffer of
`max(PVD size, LOGICAL_SECTOR_SIZE)` bytes at the sector and validate the
tag. -/
def UdfParser.read_primary_volume_descriptor (p : UdfParser) (location : Nat) :
    Except RErr PrimaryVolumeDescriptor := do
  let buf ← p.read_exact_at (p.sector_pos location)
    (max PrimaryVolumeDescriptor.size LOGICAL_SECTOR_SIZE)
  let pvd := PrimaryVolumeDescriptor.read buf
  if validate_descriptor_tag pvd.tag buf then .ok pvd
  else .error .invalidDescriptorTag

/-- Loop of read_logical_volume_descriptor over the partition-map table:
`count` is the number of maps still to read (the Rust
`maps_read < number_of_partition_maps` counter), `offset` the current
offset in `partition_map_buf`.  Returns the maps in order together with
the final offset. -/
def read_partition_maps_loop (buf : List Nat) :
    Nat → Nat → List PartitionMap → Except RErr (List PartitionMap × Nat)
  | 0, offset, acc => .ok (acc, offset)
  | count + 1, offset, acc =>
    if offset + 2 > buf.length then .error .bufferTooSmall
    else
      let map_length := byteAt buf (offset + 1)
      if offset + map_length > buf.length then .error .bufferTooSmall
      else
        match PartitionMap.read (buf.drop offset) with
        | .ok map =>
          read_partition_maps_loop buf count (offset + map.get_length)
            (acc ++ [map])
        | .error _ => .error .invalidPartitionMap

/-- read_logical_volume_descriptor in src/udf_parser.rs: read the fixed
440-byte part (from a `max(440, 2048)`-byte buffer), then, when
`map_table_length` is nonzero, read the rest of the
`(1 + map_table_length).div_ceil(2048) * 2048`-byte table buffer from the
stream position following the first read, validate the tag over it, and
decode exactly `number_of_partition_maps` partition maps, requiring the
bytes consumed to equal `map_table_length`.  When `map_table_length` is
zero the function returns immediately (without validating the tag). -/
def UdfParser.read_logical_volume_descriptor (p : UdfParser) (location : Nat) :
    Except RErr (LogicalVolumeDescriptor × List PartitionMap) := do
  let buf ← p.read_exact_at (p.sector_pos location)
    (max LogicalVolumeDescriptor.size LOGICAL_SECTOR_SIZE)
  let lvd := LogicalVolumeDescriptor.read (slice buf 0 LogicalVolumeDescriptor.size)
  if lvd.map_table_length = 0 then .ok (lvd, [])
  else do
    let total := (1 + lvd.map_table_length + 2047) / 2048 * 2048
    let rest ← p.read_exact_at (p.sector_pos location + LOGICAL_SECTOR_SIZE)
      (total - LOGICAL_SECTOR_SIZE)
    let partition_map_extra_buf := slice buf 0 LOGICAL_SECTOR_SIZE ++ rest
    if validate_descriptor_tag lvd.tag partition_map_extra_buf then
      let partition_map_buf := partition_map_extra_buf.drop LogicalVolumeDescriptor.size
      match read_partition_maps_loop partition_map_buf
          lvd.number_of_partition_maps 0 [] with
      | .ok (maps, offset) =>
        if offset ≠ lvd.map_table_length then .error .invalidPartitionMap
        else .ok (lvd, maps)
      | .error e => .error e
    else .error .invalidDescriptorTag

/-- VolumeStructures in src/udf_high_level.rs. -/
structure VolumeStructures where
  primary_volume : PrimaryVolumeDescriptor
  logical_volume : LogicalVolumeDescriptor
  partition_maps : List PartitionMap
  partition_descriptors : List (Nat × PartitionDescriptor)
deriving Repr, DecidableEq

/-- Mutable state of the read_volume_descriptor_sequence loop in
src/udf_high_level.rs. -/
structure VdsState where
  primary_volume : Option PrimaryVolumeDescriptor
  logical_volume : Option LogicalVolumeDescriptor
  partition_maps : Option (List PartitionMap)
  partition_descriptors : List (Nat × PartitionDescriptor)
deriving Repr, DecidableEq

/-- One-per-sector loop of read_volume_descriptor_sequence in
src/udf_high_level.rs; `remaining = end_location - current_location` counts
the iterations left.  Per sector: read a `max(16, 2048)`-byte buffer,
dispatch on its tag_identifier: 1 keeps the PVD read at this location
(overwriting any previous one), 5 inserts the PartitionDescriptor decoded
from the buffer (no validation) into the map keyed by partition_number,
6 keeps the LVD (with maps) if its sequence number is strictly above the
stored one, 8 ends the scan, anything else is skipped. -/
def UdfParser.vds_loop (p : UdfParser) :
    Nat → Nat → VdsState → Except RErr VdsState
  | 0, _, st => .ok st
  | remaining + 1, current_location, st => do
    let tag_buf ← p.read_exact_at (p.sector_pos current_location)
      (max DescriptorTag.size DVDCSS_BLOCK_SIZE)
    let tag := DescriptorTag.read tag_buf
    if tag.tag_identifier = PrimaryVolumeDescriptor.TAG_IDENTIFIER then do
      let pvd ← p.read_primary_volume_descriptor current_location
      p.vds_loop remaining (current_location + 1)
        { st with primary_volume := some pvd }
    else if tag.tag_identifier = PartitionDescriptor.TAG_IDENTIFIER then
      let pd := PartitionDescriptor.read tag_buf
      p.vds_loop remaining (current_location + 1)
        { st with partition_descriptors :=
            btInsert st.partition_descriptors pd.partition_number pd }
    else if tag.tag_identifier = LogicalVolumeDescriptor.TAG_IDENTIFIER then do
      let lm ← p.read_logical_volume_descriptor current_location
      if st.logical_volume.all fun old =>
          old.volume_descriptor_sequence_number <
            lm.1.volume_descriptor_sequence_number then
        p.vds_loop remaining (current_location + 1)
          { st with logical_volume := some lm.1, partition_maps := some lm.2 }
      else
        p.vds_loop remaining (current_location + 1) st
    else if tag.tag_identifier = TerminatingDescriptor.TAG_IDENTIFIER then
      .ok st
    else
      p.vds_loop remaining (current_location + 1) st

/-- read_volume_descriptor_sequence in src/udf_high_level.rs: scan
`length.div_ceil(sector_size)` sectors from `start_location` and return
`some` structures exactly when a PVD, an LVD and its partition maps were
all found. -/
def UdfParser.read_volume_descriptor_sequence (p : UdfParser)
    (start_location length : Nat) : Except RErr (Option VolumeStructures) := do
  let end_location := start_location + (length + p.sector_size - 1) / p.sector_size
  let st ← p.vds_loop (end_location - start_location) start_location
    ⟨none, none, none, []⟩
  match st.primary_volume, st.logical_volume, st.partition_maps with
  | some pvd, some lvd, some maps =>
    .ok (some ⟨pvd, lvd, maps, st.partition_descriptors⟩)
  | _, _, _ => .ok none


theorem except_ok_bind {ε α β : Type} (a : α) (f : α → Except ε β) :
    (Except.ok a >>= f : Except ε β) = f a := rfl

/-- In the VDS scan, a sector whose tag has identifier 1 replaces the
stored PVD unconditionally (last writer wins); no sequence-number
comparison takes place. -/
theorem vds_step_read_pvd (p : UdfParser) (remaining current : Nat)
    (st : VdsState) (tag_buf : List Nat) (pvd : PrimaryVolumeDescriptor)
    (hbuf : p.read_exact_at (p.sector_pos current)
      (max DescriptorTag.size DVDCSS_BLOCK_SIZE) = .ok tag_buf)
    (htag : (DescriptorTag.read tag_buf).tag_identifier = 1)
    (hpvd : p.read_primary_volume_descriptor current = .ok pvd) :
    p.vds_loop (remaining + 1) current st =
      p.vds_loop remaining (current + 1)
        { st with primary_volume := some pvd } := by
  simp [UdfParser.vds_loop, hbuf, htag, hpvd, except_ok_bind,
    PrimaryVolumeDescriptor.TAG_IDENTIFIER]

/-- In the VDS scan, a sector whose tag has identifier 6 installs the LVD
and its maps when the stored LVD (if any) has a strictly smaller sequence
number. -/
theorem vds_step_read_lvd_keep (p : UdfParser) (remaining current : Nat)
    (st : VdsState) (tag_buf : List Nat) (lvd : LogicalVolumeDescriptor)
    (maps : List PartitionMap)
    (hbuf : p.read_exact_at (p.sector_pos current)
      (max DescriptorTag.size DVDCSS_BLOCK_SIZE) = .ok tag_buf)
    (htag : (DescriptorTag.read tag_buf).tag_identifier = 6)
    (hlvd : p.read_logical_volume_descriptor current = .ok (lvd, maps))
    (hkeep : (st.logical_volume.all fun old =>
      old.volume_descriptor_sequence_number <
        lvd.volume_descriptor_sequence_number) = true) :
    p.vds_loop (remaining + 1) current st =
      p.vds_loop remaining (current + 1)
        { st with logical_volume := some lvd, partition_maps := some maps } := by
  simp [UdfParser.vds_loop, hbuf, htag, hlvd, except_ok_bind, hkeep,
    PrimaryVolumeDescriptor.TAG_IDENTIFIER, PartitionDescriptor.TAG_IDENTIFIER,
    LogicalVolumeDescriptor.TAG_IDENTIFIER]

/-- In the VDS scan, a sector whose tag has identifier 8 (terminating
descriptor) ends the scan with the current state. -/
theorem vds_step_terminator (p : UdfParser) (remaining current : Nat)
    (st : VdsState) (tag_buf : List Nat)
    (hbuf : p.read_exact_at (p.sector_pos current)
      (max DescriptorTag.size DVDCSS_BLOCK_SIZE) = .ok tag_buf)
    (htag : (DescriptorTag.read tag_buf).tag_identifier = 8) :
    p.vds_loop (remaining + 1) current st = .ok st := by
  simp [UdfParser.vds_loop, hbuf, htag, except_ok_bind,
    PrimaryVolumeDescriptor.TAG_IDENTIFIER, PartitionDescriptor.TAG_IDENTIFIER,
    LogicalVolumeDescriptor.TAG_IDENTIFIER, TerminatingDescriptor.TAG_IDENTIFIER]

/-! Concrete VDS for claim C7: four 512-byte sectors (sector_size 512,
as in the repository's own tests) holding, in order, a valid PVD with
sequence number 5, a valid PVD with sequence number 1, a valid LVD with an
empty map table, and a terminating descriptor, followed by enough zero
padding for the 2048-byte sector reads. -/

/-- A 512-byte sector holding a PVD whose tag checksum is valid
(identifier 1, version 2, checksum 3, crc length 0) and whose
volume_descriptor_sequence_number is `seq` (one byte). -/
def pvdSector (seq : Nat) : List Nat :=
  1 :: 0 :: 2 :: 0 :: 3 :: (List.replicate 11 0 ++ (seq :: List.replicate 495 0))

/-- A 512-byte sector holding an LVD with valid tag checksum (identifier 6,
version 2, checksum 8) and zero map_table_length. -/
def lvdSector : List Nat := 6 :: 0 :: 2 :: 0 :: 8 :: List.replicate 507 0

/-- A 512-byte sector whose tag identifier is 8 (terminating descriptor;
the scan ends there without validating). -/
def termSector : List Nat := 8 :: List.replicate 511 0

/-- The 4096-byte counterexample stream. -/
def cexVdsSrc : List Nat :=
  pvdSector 5 ++ (pvdSector 1 ++ (lvdSector ++ (termSector ++ List.replicate 2048 0)))

/-- Parser over the counterexample stream, sector size 512. -/
def cexVdsParser : UdfParser := { src := cexVdsSrc, sector_size := 512, data_offset := 0 }

theorem cexVdsSrc_length : cexVdsSrc.length = 4096 := by
  simp only [cexVdsSrc, pvdSector, lvdSector, termSector, List.length_append,
    List.length_cons, List.length_replicate]

theorem cexVds_read (pos : Nat) (h : pos + 2048 ≤ 4096) :
    cexVdsParser.read_exact_at pos 2048 = .ok (slice cexVdsSrc pos (pos + 2048)) := by
  simp only [UdfParser.read_exact_at, cexVdsParser]
  rw [cexVdsSrc_length]
  rw [if_neg (by norm_num : ¬ (2048 : Nat) = 0), if_pos h]

/-- The PVD stored at sector 0 (sequence number 5). -/
def cexPvd0 : PrimaryVolumeDescriptor :=
  PrimaryVolumeDescriptor.read (slice cexVdsSrc 0 2048)

/-- The PVD stored at sector 1 (sequence number 1). -/
def cexPvd1 : PrimaryVolumeDescriptor :=
  PrimaryVolumeDescriptor.read (slice cexVdsSrc 512 2560)

/-- The LVD stored at sector 2. -/
def cexLvd : LogicalVolumeDescriptor :=
  LogicalVolumeDescriptor.read (slice (slice cexVdsSrc 1024 3072) 0 440)

theorem cexVds_hbuf (sector : Nat) (h : sector * 512 + 2048 ≤ 4096) :
    cexVdsParser.read_exact_at (cexVdsParser.sector_pos sector)
      (max DescriptorTag.size DVDCSS_BLOCK_SIZE) =
      .ok (slice cexVdsSrc (sector * 512) (sector * 512 + 2048)) := by
  have h1 : cexVdsParser.sector_pos sector = sector * 512 := rfl
  have h2 : max DescriptorTag.size DVDCSS_BLOCK_SIZE = 2048 := rfl
  rw [h1, h2, cexVds_read _ h]

theorem cexVds_pvd0 :
    cexVdsParser.read_primary_volume_descriptor 0 = .ok cexPvd0 := by
  unfold UdfParser.read_primary_volume_descriptor
  rw [show max PrimaryVolumeDescriptor.size LOGICAL_SECTOR_SIZE = 2048 from rfl,
    show cexVdsParser.sector_pos 0 = 0 from rfl,
    cexVds_read 0 (by norm_num), except_ok_bind]
  rfl

theorem cexVds_pvd1 :
    cexVdsParser.read_primary_volume_descriptor 1 = .ok cexPvd1 := by
  unfold UdfParser.read_primary_volume_descriptor
  rw [show max PrimaryVolumeDescriptor.size LOGICAL_SECTOR_SIZE = 2048 from rfl,
    show cexVdsParser.sector_pos 1 = 512 from rfl,
    cexVds_read 512 (by norm_num), except_ok_bind]
  rfl

theorem cexVds_lvd :
    cexVdsParser.read_logical_volume_descriptor 2 = .ok (cexLvd, []) := by
  unfold UdfParser.read_logical_volume_descriptor
  rw [show max LogicalVolumeDescriptor.size LOGICAL_SECTOR_SIZE = 2048 from rfl,
    show cexVdsParser.sector_pos 2 = 1024 from rfl,
    cexVds_read 1024 (by norm_num), except_ok_bind]
  rfl

theorem cexVds_loop :
    cexVdsParser.vds_loop 4 0 ⟨none, none, none, []⟩ =
      .ok ⟨some cexPvd1, some cexLvd, some [], []⟩ := by
  rw [show (4 : Nat) = 3 + 1 from rfl,
    vds_step_read_pvd cexVdsParser 3 0 _ _ cexPvd0
      (cexVds_hbuf 0 (by norm_num)) (by rfl) cexVds_pvd0]
  rw [show (3 : Nat) = 2 + 1 from rfl,
    vds_step_read_pvd cexVdsParser 2 1 _ _ cexPvd1
      (cexVds_hbuf 1 (by norm_num)) (by rfl) cexVds_pvd1]
  rw [show (2 : Nat) = 1 + 1 from rfl,
    vds_step_read_lvd_keep cexVdsParser 1 2 _ _ cexLvd []
      (cexVds_hbuf 2 (by norm_num)) (by rfl) cexVds_lvd (by rfl)]
  rw [show (1 : Nat) = 0 + 1 from rfl,
    vds_step_terminator cexVdsParser 0 3 _ _
      (cexVds_hbuf 3 (by norm_num)) (by rfl)]

theorem cexVds_result :
    cexVdsParser.read_volume_descriptor_sequence 0 2048 =
      .ok (some ⟨cexPvd1, cexLvd, [], []⟩) := by
  unfold UdfParser.read_volume_descriptor_sequence
  rw [show cexVdsParser.sector_size = 512 from rfl]
  norm_num
  rw [cexVds_loop, except_ok_bind]

/-- C7 counterexample: the scan keeps the LAST PVD read, not the one with
the highest volume_descriptor_sequence_number.  On the concrete stream the
first sector holds a valid PVD with sequence number 5 (successfully read,
as the second conjunct shows), the second a valid PVD with sequence number
1, and the returned VolumeStructures contain the sequence-number-1 PVD. -/
theorem vds_pvd_claim_cex :
    (cexVdsParser.read_volume_descriptor_sequence 0 2048).map
        (Option.map fun st => st.primary_volume.volume_descriptor_sequence_number) =
      .ok (some 1) ∧
    (cexVdsParser.read_primary_volume_descriptor 0).map
        (fun pvd => pvd.volume_descriptor_sequence_number) = .ok 5 ∧
    (1 : Nat) ≠ 5 := by
  refine ⟨?_, ?_, by decide⟩
  · rw [cexVds_result]
    rfl
  · rw [cexVds_pvd0]
    rfl

/-- C7 amended: during a volume-descriptor-sequence scan, a sector whose
tag has identifier 1 (PVD) replaces the stored PVD unconditionally, so when
several PVDs are encountered the LAST successfully read one is kept (the
highest-sequence-number rule applies only to the Logical Volume
Descriptor); the VolumeStructures returned contain that last PVD. -/
theorem vds_pvd_step_amended (p : UdfParser) (remaining current : Nat)
    (st : VdsState) (tag_buf : List Nat) (pvd : PrimaryVolumeDescriptor)
    (hbuf : p.read_exact_at (p.sector_pos current)
      (max DescriptorTag.size DVDCSS_BLOCK_SIZE) = .ok tag_buf)
    (htag : (DescriptorTag.read tag_buf).tag_identifier = 1)
    (hpvd : p.read_primary_volume_descriptor current = .ok pvd) :
    p.vds_loop (remaining + 1) current st =
      p.vds_loop remaining (current + 1)
        { st with primary_volume := some pvd } :=
  vds_step_read_pvd p remaining current st tag_buf pvd hbuf htag hpvd

/-- Witness for C7 (amended) at sector 0 of the concrete stream: the state
with no PVD is replaced by the sequence-number-5 PVD. -/
theorem vds_pvd_step_amended_witness :
    cexVdsParser.vds_loop (3 + 1) 0 ⟨none, none, none, []⟩ =
      cexVdsParser.vds_loop 3 1
        ⟨some cexPvd0, none, none, []⟩ :=
  vds_pvd_step_amended cexVdsParser 3 0 ⟨none, none, none, []⟩ _ cexPvd0
    (cexVds_hbuf 0 (by norm_num)) (by rfl) cexVds_pvd0


/-! File Identifier Descriptors and directory-content parsing
(src/udf.rs `FileIdentifierDescriptor`, src/udf_parser.rs
`parse_file_identifiers`). -/

/-- Tag identifier of a FileIdentifierDescriptor. -/
def FileIdentifierDescriptor.TAG_IDENTIFIER : Nat := 257

/-- Tag identifier of a TerminalEntry. -/
def TerminalEntry.TAG_IDENTIFIER : Nat := 260

/-- Tag identifier of a FileEntry. -/
def FileEntry.TAG_IDENTIFIER : Nat := 261

/-- Tag identifier of an IndirectEntry. -/
def IndirectEntry.TAG_IDENTIFIER : Nat := 259

/-- FileIdentifierDescriptor in src/udf.rs; `file_identifier` holds the
raw dstring bytes (the Rust `DynamicDstring`). -/
structure FileIdentifierDescriptor where
  tag : DescriptorTag
  file_version_number : Nat
  file_characteristics : Nat
  length_of_file_identifier : Nat
  icb : LongAd
  length_of_implementation_use : Nat
  implementation_use : List Nat
  file_identifier : List Nat
deriving Repr, DecidableEq

instance : Inhabited FileIdentifierDescriptor :=
  ⟨⟨default, 0, 0, 0, default, 0, [], []⟩⟩

/-- File characteristic bit: existence. -/
def FileIdentifierDescriptor.FILE_CHARACTERISTIC_EXISTENCE : Nat := 1

/-- File characteristic bit: directory. -/
def FileIdentifierDescriptor.FILE_CHARACTERISTIC_DIRECTORY : Nat := 2

/-- File characteristic bit: deleted. -/
def FileIdentifierDescriptor.FILE_CHARACTERISTIC_DELETED : Nat := 4

/-- File characteristic bit: parent. -/
def FileIdentifierDescriptor.FILE_CHARACTERISTIC_PARENT : Nat := 8

/-- FileIdentifierDescriptor::size in src/udf.rs:
`38 + L_IU + L_FI` (the stored size before 4-byte alignment). -/
def FileIdentifierDescriptor.size (fid : FileIdentifierDescriptor) : Nat :=
  38 + fid.length_of_implementation_use + fid.length_of_file_identifier

/-- FileIdentifierDescriptor::read in src/udf.rs.  The Rust code reads the
fixed 38-byte header by direct indexing and then slices
`bytes[38..38+L_IU]` and `bytes[38+L_IU..38+L_IU+L_FI]` WITHOUT bounds
checks; a buffer shorter than these ranges makes it panic
(`RErr.panicked`), it does not return `BufferTooSmall`. -/
def FileIdentifierDescriptor.read (bytes : List Nat) :
    Except RErr FileIdentifierDescriptor :=
  if bytes.length < 38 then .error .panicked
  else
    let impl_use_len := le16 bytes 36
    let file_id_len := byteAt bytes 19
    if bytes.length < 38 + impl_use_len then .error .panicked
    else if bytes.length < 38 + impl_use_len + file_id_len then .error .panicked
    else .ok
      { tag := DescriptorTag.read (slice bytes 0 16)
        file_version_number := le16 bytes 16
        file_characteristics := byteAt bytes 18
        length_of_file_identifier := file_id_len
        icb := LongAd.read (slice bytes 20 36)
        length_of_implementation_use := impl_use_len
        implementation_use := slice bytes 38 (38 + impl_use_len)
        file_identifier :=
          slice bytes (38 + impl_use_len) (38 + impl_use_len + file_id_len) }

/-- ICBTag in src/udf.rs (20 bytes). -/
structure ICBTag where
  prior_recorded_number_of_direct_entries : Nat
  strategy_type : Nat
  strategy_parameter : List Nat
  maximum_number_of_entries : Nat
  reserved : Nat
  file_type : Nat
  parent_icb_location : LbAddr
  flags : Nat
deriving Repr, DecidableEq

/-- ICBTag::read. -/
def ICBTag.read (bytes : List Nat) : ICBTag :=
  ⟨le32 bytes 0, le16 bytes 4, slice bytes 6 8, le16 bytes 8, byteAt bytes 10,
    byteAt bytes 11, LbAddr.read (slice bytes 12 18), le16 bytes 18⟩

/-- FileEntry in src/udf.rs (variable length, tag 261). -/
structure FileEntry where
  tag : DescriptorTag
  icb_tag : ICBTag
  uid : Nat
  gid : Nat
  permissions : Nat
  file_link_count : Nat
  record_format : Nat
  record_display_attributes : Nat
  record_length : Nat
  information_length : Nat
  logical_blocks_recorded : Nat
  access_time : Timestamp
  modification_time : Timestamp
  attribute_time : Timestamp
  checkpoint : Nat
  extended_attribute_icb : LongAd
  implementation_identifier : EntityID
  unique_id : Nat
  length_of_extended_attributes : Nat
  length_of_allocation_descriptors : Nat
  extended_attributes : List Nat
  allocation_descriptors : List Nat
deriving Repr, DecidableEq

/-- FileEntry::get_length in src/udf.rs: `176 + L_EA + L_AD`. -/
def FileEntry.get_length (fe : FileEntry) : Nat :=
  176 + fe.length_of_extended_attributes + fe.length_of_allocation_descriptors

/-- FileEntry::read in src/udf.rs.  Like the FID reader it slices
`bytes[176..176+L_EA]` and the following L_AD bytes without validating the
lengths against the buffer, so an oversized length field panics
(`RErr.panicked`) instead of producing `BufferTooSmall`. -/
def FileEntry.read (bytes : List Nat) : Except RErr FileEntry :=
  if bytes.length < 176 then .error .panicked
  else
    let length_of_extended_attributes := le32 bytes 168
    let length_of_allocation_descriptors := le32 bytes 172
    if bytes.length < 176 + length_of_extended_attributes then .error .panicked
    else if bytes.length <
        176 + length_of_extended_attributes + length_of_allocation_descriptors
      then .error .panicked
    else .ok
      { tag := DescriptorTag.read (slice bytes 0 16)
        icb_tag := ICBTag.read (slice bytes 16 36)
        uid := le32 bytes 36
        gid := le32 bytes 40
        permissions := le32 bytes 44
        file_link_count := le16 bytes 48
        record_format := byteAt bytes 50
        record_display_attributes := byteAt bytes 51
        record_length := le32 bytes 52
        information_length := le64 bytes 56
        logical_blocks_recorded := le64 bytes 64
        access_time := Timestamp.read (slice bytes 72 84)
        modification_time := Timestamp.read (slice bytes 84 96)
        attribute_time := Timestamp.read (slice bytes 96 108)
        checkpoint := le32 bytes 108
        extended_attribute_icb := LongAd.read (slice bytes 112 128)
        implementation_identifier := EntityID.read (slice bytes 128 160)
        unique_id := le64 bytes 160
        length_of_extended_attributes := length_of_extended_attributes
        length_of_allocation_descriptors := length_of_allocation_descriptors
        extended_attributes := slice bytes 176 (176 + length_of_extended_attributes)
        allocation_descriptors :=
          slice bytes (176 + length_of_extended_attributes)
            (176 + length_of_extended_attributes + length_of_allocation_descriptors) }

/-- Rust `n + 3 & !3` on usize: clear the low two bits of `n + 3`,
i.e. round it down to a multiple of 4 (the 4-byte alignment of stored FID
records). -/
def sizeAligned4 (n : Nat) : Nat := (n + 3) &&& 0xFFFFFFFFFFFFFFFC

theorem land_mask4_eq (x : Nat) (hx : x < 2 ^ 64) :
    x &&& 0xFFFFFFFFFFFFFFFC = x / 4 * 4 := by
  have hmask : (0xFFFFFFFFFFFFFFFC : Nat) = (2 ^ 62 - 1) <<< 2 := by
    rw [Nat.shiftLeft_eq]
    norm_num
  have hxdiv : x / 4 * 4 = (x >>> 2) <<< 2 := by
    rw [Nat.shiftLeft_eq, Nat.shiftRight_eq_div_pow]
  rw [hmask, hxdiv]
  apply Nat.eq_of_testBit_eq
  intro i
  rw [Nat.testBit_land, Nat.testBit_shiftLeft, Nat.testBit_shiftLeft,
    Nat.testBit_two_pow_sub_one, Nat.testBit_shiftRight]
  by_cases h2 : 2 ≤ i
  · by_cases h64 : i < 64
    · rw [show 2 + (i - 2) = i by omega]
      simp [h2, show i - 2 < 62 by omega]
    · have hbit : x.testBit i = false :=
        Nat.testBit_lt_two_pow
          (lt_of_lt_of_le hx (Nat.pow_le_pow_right (by norm_num) (by omega)))
      have hbit2 : x.testBit (2 + (i - 2)) = false := by
        rw [show 2 + (i - 2) = i by omega]
        exact hbit
      simp [hbit, hbit2, show ¬ (i - 2 < 62) by omega]
  · simp [show ¬ i ≥ 2 by omega]

theorem byteAt_lt (l : List Nat) (i : Nat) : byteAt l i < 256 :=
  Nat.mod_lt _ (by norm_num)

theorem le16_lt (l : List Nat) (i : Nat) : le16 l i < 65536 := by
  have h1 := byteAt_lt l i
  have h2 := byteAt_lt l (i + 1)
  unfold le16
  omega

theorem fid_read_bounds (bytes : List Nat) (fid : FileIdentifierDescriptor)
    (h : FileIdentifierDescriptor.read bytes = .ok fid) :
    fid.length_of_implementation_use < 65536 ∧
      fid.length_of_file_identifier < 256 := by
  simp only [FileIdentifierDescriptor.read] at h
  split_ifs at h
  rw [Except.ok.injEq] at h
  subst h
  exact ⟨le16_lt bytes 36, byteAt_lt bytes 19⟩

theorem sizeAligned4_bounds (fid : FileIdentifierDescriptor)
    (h1 : fid.length_of_implementation_use < 65536)
    (h2 : fid.length_of_file_identifier < 256) :
    40 ≤ sizeAligned4 fid.size := by
  have hsz : fid.size = 38 + fid.length_of_implementation_use +
      fid.length_of_file_identifier := rfl
  rw [sizeAligned4, land_mask4_eq _ (by omega)]
  omega

/-- Loop body of parse_file_identifiers in src/udf_parser.rs, with an
explicit fuel argument (below it is instantiated with `buf.length`, which
`parse_fids_go_fuel` shows is always enough: every iteration consumes at
least 40 bytes of the buffer, so the fuel case 0 with a non-empty buffer is
unreachable).  Per record: stop with the records so far on tag 0, on tag
260 (terminal entry) or when at most 16 bytes remain; decode a FID on tag
257 and advance by `(38 + L_IU + L_FI + 3) & !3` bytes (panicking like the
Rust slicing when that exceeds the remaining buffer); fail with
InvalidDescriptorTag on any other tag. -/
def parse_fids_go : Nat → List Nat → Except RErr (List FileIdentifierDescriptor)
  | 0, _ => .ok []
  | fuel + 1, buf =>
    if buf.length > DescriptorTag.size then
      let tag := DescriptorTag.read buf
      if tag.tag_identifier = 0 then .ok []
      else if tag.tag_identifier = FileIdentifierDescriptor.TAG_IDENTIFIER then
        match FileIdentifierDescriptor.read buf with
        | .ok file_identifier =>
          let size_aligned_4_byte := sizeAligned4 file_identifier.size
          if size_aligned_4_byte ≤ buf.length then
            match parse_fids_go fuel (buf.drop size_aligned_4_byte) with
            | .ok entries => .ok (file_identifier :: entries)
            | .error e => .error e
          else .error .panicked
        | .error e => .error e
      else if tag.tag_identifier = TerminalEntry.TAG_IDENTIFIER then .ok []
      else .error .invalidDescriptorTag
    else .ok []

/-- parse_file_identifiers in src/udf_parser.rs. -/
def parse_file_identifiers (buf : List Nat) :
    Except RErr (List FileIdentifierDescriptor) :=
  parse_fids_go buf.length buf

theorem parse_fids_go_fuel (f1 : Nat) : ∀ (f2 : Nat) (buf : List Nat),
    buf.length ≤ f1 → buf.length ≤ f2 →
    parse_fids_go f1 buf = parse_fids_go f2 buf := by
  induction f1 with
  | zero =>
    intro f2 buf hb1 _
    have hempty : buf.length = 0 := by omega
    cases f2 with
    | zero => rfl
    | succ g2 =>
      simp only [parse_fids_go]
      rw [if_neg (by rw [hempty]; simp [DescriptorTag.size])]
  | succ g1 ih =>
    intro f2 buf hb1 hb2
    cases f2 with
    | zero =>
      have hempty : buf.length = 0 := by omega
      simp only [parse_fids_go]
      rw [if_neg (by rw [hempty]; simp [DescriptorTag.size])]
    | succ g2 =>
      simp only [parse_fids_go]
      by_cases hlen : buf.length > DescriptorTag.size
      · rw [if_pos hlen, if_pos hlen]
        by_cases h0 : (DescriptorTag.read buf).tag_identifier = 0
        · rw [if_pos h0, if_pos h0]
        rw [if_neg h0, if_neg h0]
        by_cases h257 : (DescriptorTag.read buf).tag_identifier =
            FileIdentifierDescriptor.TAG_IDENTIFIER
        · rw [if_pos h257, if_pos h257]
          cases hread : FileIdentifierDescriptor.read buf with
          | error e => rfl
          | ok fid =>
            obtain ⟨hbl, hbf⟩ := fid_read_bounds buf fid hread
            have h40 := sizeAligned4_bounds fid hbl hbf
            dsimp only
            by_cases hle : sizeAligned4 fid.size ≤ buf.length
            · rw [if_pos hle, if_pos hle,
                ih g2 (buf.drop (sizeAligned4 fid.size))
                  (by simp only [List.length_drop]; omega)
                  (by simp only [List.length_drop]; omega)]
            · rw [if_neg hle, if_neg hle]
        · rw [if_neg h257, if_neg h257]
      · rw [if_neg hlen, if_neg hlen]


/-- The FID-parser test fixture from src/udf_parser.rs
(`test_parse_file_identifiers`), copied from a DVD: 136 bytes holding three
FileIdentifierDescriptors. -/
def fidFixture : List Nat :=
  [1, 1, 2, 0, 200, 0, 0, 0, 71, 98, 24, 0, 3, 0, 0, 0, 1, 0, 10, 0, 0, 8, 0, 0, 2, 0, 0,
   0, 0, 0, 0, 0, 0, 0, 0, 0, 0, 0, 0, 0, 1, 1, 2, 0, 251, 0, 0, 0, 96, 116, 32, 0, 3, 0,
   0, 0, 1, 0, 2, 9, 0, 8, 0, 0, 4, 0, 0, 0, 0, 0, 0, 0, 0, 0, 0, 0, 0, 0, 8, 65, 85, 68,
   73, 79, 95, 84, 83, 0, 1, 1, 2, 0, 217, 0, 0, 0, 211, 223, 32, 0, 3, 0, 0, 0, 1, 0, 2,
   9, 0, 8, 0, 0, 6, 0, 0, 0, 0, 0, 0, 0, 0, 0, 0, 0, 0, 0, 8, 86, 73, 68, 69, 79, 95, 84,
   83, 0]

/-- C8: directory-content parsing proceeds record by record.  With more
than 16 bytes remaining, a peeked tag with identifier 0 ends parsing with
the records so far; identifier 257 decodes a FileIdentifierDescriptor,
advances by `(38 + L_IU + L_FI + 3) & !3` bytes (4-byte alignment, the
fifth conjunct giving the arithmetic reading of the mask) and prepends the
record to the rest of the parse; identifier 260 stops; and any other
identifier yields InvalidDescriptorTag.  The FID-parser test fixture parses
to exactly three FIDs with identifiers "", "AUDIO_TS", "VIDEO_TS", the
first having FILE_CHARACTERISTIC_PARENT set. -/
theorem parse_file_identifiers_spec :
    (∀ buf : List Nat, DescriptorTag.size < buf.length →
      (DescriptorTag.read buf).tag_identifier = 0 →
      parse_file_identifiers buf = .ok []) ∧
    (∀ (buf : List Nat) (fid : FileIdentifierDescriptor),
      DescriptorTag.size < buf.length →
      (DescriptorTag.read buf).tag_identifier = 257 →
      FileIdentifierDescriptor.read buf = .ok fid →
      sizeAligned4 fid.size ≤ buf.length →
      parse_file_identifiers buf =
        (parse_file_identifiers (buf.drop (sizeAligned4 fid.size))).map
          (fun entries => fid :: entries)) ∧
    (∀ buf : List Nat, DescriptorTag.size < buf.length →
      (DescriptorTag.read buf).tag_identifier = 260 →
      parse_file_identifiers buf = .ok []) ∧
    (∀ buf : List Nat, DescriptorTag.size < buf.length →
      (DescriptorTag.read buf).tag_identifier ≠ 0 →
      (DescriptorTag.read buf).tag_identifier ≠ 257 →
      (DescriptorTag.read buf).tag_identifier ≠ 260 →
      parse_file_identifiers buf = .error .invalidDescriptorTag) ∧
    (∀ a b : Nat, a < 65536 → b < 256 →
      sizeAligned4 (38 + a + b) = (38 + a + b + 3) / 4 * 4) ∧
    (∃ f1 f2 f3, parse_file_identifiers fidFixture = .ok [f1, f2, f3] ∧
      osta.decode f1.file_identifier = [] ∧
      osta.decode f2.file_identifier = "AUDIO_TS".toList ∧
      osta.decode f3.file_identifier = "VIDEO_TS".toList ∧
      f1.file_characteristics &&&
        FileIdentifierDescriptor.FILE_CHARACTERISTIC_PARENT ≠ 0) := by
  refine ⟨?_, ?_, ?_, ?_, ?_, ?_⟩
  · intro buf h16 htag
    have hm : buf.length = buf.length - 1 + 1 := by
      have := h16
      simp only [DescriptorTag.size] at this
      omega
    conv_lhs => rw [parse_file_identifiers, hm]
    simp only [parse_fids_go]
    rw [if_pos h16, if_pos htag]
  · intro buf fid h16 htag hread hle
    obtain ⟨hbl, hbf⟩ := fid_read_bounds buf fid hread
    have h40 := sizeAligned4_bounds fid hbl hbf
    have hm : buf.length = buf.length - 1 + 1 := by
      have := h16
      simp only [DescriptorTag.size] at this
      omega
    conv_lhs => rw [parse_file_identifiers, hm]
    simp only [parse_fids_go]
    rw [if_pos h16, if_neg (by rw [htag]; norm_num),
      if_pos (by rw [htag, FileIdentifierDescriptor.TAG_IDENTIFIER]), hread]
    dsimp only
    rw [if_pos hle]
    rw [parse_fids_go_fuel (buf.length - 1)
      ((buf.drop (sizeAligned4 fid.size)).length)
      (buf.drop (sizeAligned4 fid.size))
      (by simp only [List.length_drop]; omega) (le_refl _)]
    rw [show parse_fids_go ((buf.drop (sizeAligned4 fid.size)).length)
        (buf.drop (sizeAligned4 fid.size)) =
      parse_file_identifiers (buf.drop (sizeAligned4 fid.size)) from rfl]
    cases parse_file_identifiers (buf.drop (sizeAligned4 fid.size)) with
    | ok entries => rfl
    | error e => rfl
  · intro buf h16 htag
    have hm : buf.length = buf.length - 1 + 1 := by
      have := h16
      simp only [DescriptorTag.size] at this
      omega
    conv_lhs => rw [parse_file_identifiers, hm]
    simp only [parse_fids_go]
    rw [if_pos h16, if_neg (by rw [htag]; norm_num),
      if_neg (by rw [htag, FileIdentifierDescriptor.TAG_IDENTIFIER]; norm_num),
      if_pos (by rw [htag, TerminalEntry.TAG_IDENTIFIER])]
  · intro buf h16 h0 h257 h260
    have hm : buf.length = buf.length - 1 + 1 := by
      have := h16
      simp only [DescriptorTag.size] at this
      omega
    conv_lhs => rw [parse_file_identifiers, hm]
    simp only [parse_fids_go]
    rw [if_pos h16, if_neg h0,
      if_neg (by rw [FileIdentifierDescriptor.TAG_IDENTIFIER]; exact h257),
      if_neg (by rw [TerminalEntry.TAG_IDENTIFIER]; exact h260)]
  · intro a b ha hb
    rw [sizeAligned4, land_mask4_eq _ (by omega)]
  · refine ⟨_, _, _, rfl, ?_, ?_, ?_, ?_⟩
    · rfl
    · rfl
    · rfl
    · decide

/-- Witness for C8 at a concrete input: a 17-byte all-zero buffer has tag
identifier 0 and parses to the empty record list. -/
theorem parse_file_identifiers_spec_witness :
    parse_file_identifiers (List.replicate 17 0) = .ok [] :=
  parse_file_identifiers_spec.1 (List.replicate 17 0) (by decide) (by decide)

/-- Oversized-length FID buffer for claim C9: 40 bytes whose
length_of_implementation_use field claims 100 bytes. -/
def fidOobInput : List Nat := [1, 1] ++ List.replicate 34 0 ++ [100, 0, 0, 0]

/-- Oversized-length FileEntry buffer for claim C9: 180 bytes whose
length_of_extended_attributes field claims 1000 bytes. -/
def feOobInput : List Nat := List.replicate 168 0 ++ [232, 3, 0, 0] ++ List.replicate 8 0

/-- C9: decoding a variable-length descriptor whose header length fields
claim more bytes than remain does NOT fail with BufferTooSmall: both
FileIdentifierDescriptor::read and FileEntry::read slice the buffer with no
bounds validation, so the Rust code panics (out-of-bounds range), modelled
as `RErr.panicked`, which is distinct from `RErr.bufferTooSmall`. -/
theorem fid_read_oob_panics :
    FileIdentifierDescriptor.read fidOobInput = .error .panicked ∧
    FileEntry.read feOobInput = .error .panicked ∧
    RErr.panicked ≠ RErr.bufferTooSmall := by
  refine ⟨rfl, rfl, by decide⟩


/-! Sector cache (src/cache.rs).  `Cache<R, BYTE_SIZE>` owns a flat
`[u8; BYTE_SIZE]` split into `BYTE_SIZE / 2048` slots, an `lru::LruCache`
mapping block number to slot index, and a free-slot stack.  The embedding
stores the flat array slot-wise (`data[i]` models the Rust bytes
`data[i*2048..(i+1)*2048]`), the LRU map as a `(block, slot)` list in
most-recently-used-first order (the lru crate: `get` promotes the entry,
`put` inserts as MRU, `pop_lru` removes the least recently used entry),
and the `Vec` stack with its top (the Rust back, where push/pop act) at
the head of the list.  The block source, a claim-C2 error-free reader, is
a total function from byte position to byte value. -/

structure Cache where
  byteSize : Nat
  data : List (List Nat)
  lru_cache : List (Nat × Nat)
  empty_blocks : List Nat
deriving Repr, DecidableEq

/-- Number of cache slots: `BYTE_SIZE / DVDCSS_BLOCK_SIZE`. -/
def Cache.slotCount (c : Cache) : Nat := c.byteSize / DVDCSS_BLOCK_SIZE

/-- Cache::new in src/cache.rs: zeroed data, empty LRU, free stack holding
the slots 0..slotCount (pushed in order, so the top of the stack is the
highest index). -/
def Cache.new (byteSize : Nat) : Cache :=
  { byteSize := byteSize
    data := List.replicate (byteSize / DVDCSS_BLOCK_SIZE)
      (List.replicate DVDCSS_BLOCK_SIZE 0)
    lru_cache := []
    empty_blocks := (List.range (byteSize / DVDCSS_BLOCK_SIZE)).reverse }

/-- `LruCache::get`: find the slot bound to `key` and remove the entry
(the caller re-inserts it at the front, which is the promotion to most
recently used that the lru crate performs). -/
def lruGet : List (Nat × Nat) → Nat → Option (Nat × List (Nat × Nat))
  | [], _ => none
  | (b, s) :: rest, key =>
    if b = key then some (s, rest)
    else
      match lruGet rest key with
      | some (s', rest') => some (s', (b, s) :: rest')
      | none => none

/-- `LruCache::pop_lru`: remove and return the least recently used entry
(the last of the MRU-first list). -/
def lruPopLru (lru : List (Nat × Nat)) :
    Option ((Nat × Nat) × List (Nat × Nat)) :=
  match lru.getLast? with
  | some p => some (p, lru.dropLast)
  | none => none

/-- Cache::ensure_empty_block in src/cache.rs: pop a free slot, or evict
the LRU entry and reuse its slot; `none` models the Rust `unwrap` panic
when both are empty (impossible for a cache with at least one slot). -/
def Cache.ensure_empty_block (c : Cache) :
    Option (Nat × List (Nat × Nat) × List Nat) :=
  match c.empty_blocks with
  | index :: rest => some (index, c.lru_cache, rest)
  | [] =>
    match lruPopLru c.lru_cache with
    | some ((_old_block, index), lru') => some (index, lru', [])
    | none => none

/-- The 2048 bytes the block source holds at byte offset
`block * DVDCSS_BLOCK_SIZE`. -/
def srcBlock (src : Nat → Nat) (block : Nat) : List Nat :=
  (List.range DVDCSS_BLOCK_SIZE).map fun i =>
    src (block * DVDCSS_BLOCK_SIZE + i) % 256

/-- Cache::read_block in src/cache.rs over an error-free source.  On a hit
the slot bytes are returned and the entry promoted to MRU; on a miss a
slot is obtained from ensure_empty_block, zero-filled and overwritten by
seek + read_exact (which for an error-free source nets to writing the
source block), and the mapping is inserted as MRU.  The Rust failure
branch, which returns the slot to the free list and propagates the I/O
error, cannot trigger for an error-free source. -/
def Cache.read_block (src : Nat → Nat) (c : Cache) (block : Nat) :
    Except RErr (List Nat × Cache) :=
  match lruGet c.lru_cache block with
  | some (index, lru') =>
    .ok (c.data.getD index [], { c with lru_cache := (block, index) :: lru' })
  | none =>
    match c.ensure_empty_block with
    | none => .error .panicked
    | some (index, lru', empty') =>
      let buf := srcBlock src block
      .ok (buf,
        { c with
          data := c.data.set index buf
          lru_cache := (block, index) :: lru'
          empty_blocks := empty' })

/-- Execute a sequence of read_block calls, threading the cache state. -/
def runReads (src : Nat → Nat) : List Nat → Cache → Cache
  | [], c => c
  | b :: rest, c =>
    match c.read_block src b with
    | .ok x => runReads src rest x.2
    | .error _ => runReads src rest c

/-- Invariant tying a reachable cache state to the source: the data array
has one entry per slot; every cached mapping points at a slot holding
exactly the source bytes of its block; no block is mapped twice; and the
mapped slots together with the free stack are a permutation of all slots
(hence mapped slots are distinct, in range, and
`lru_cache.length + empty_blocks.length = slotCount`). -/
def CacheInv (src : Nat → Nat) (c : Cache) : Prop :=
  c.data.length = c.slotCount ∧
  (∀ p ∈ c.lru_cache, c.data.getD p.2 [] = srcBlock src p.1) ∧
  (c.lru_cache.map Prod.fst).Nodup ∧
  (c.lru_cache.map Prod.snd ++ c.empty_blocks).Perm (List.range c.slotCount)

theorem CacheInv_new (src : Nat → Nat) (n : Nat) :
    CacheInv src (Cache.new n) := by
  refine ⟨by simp [Cache.new, Cache.slotCount], by simp [Cache.new], by simp [Cache.new], ?_⟩
  simp only [Cache.new, Cache.slotCount, List.map_nil, List.nil_append]
  exact List.reverse_perm _

theorem lruGet_none (lru : List (Nat × Nat)) (key : Nat)
    (h : lruGet lru key = none) : ∀ p ∈ lru, p.1 ≠ key := by
  induction lru with
  | nil =>
    intro p hp
    cases hp
  | cons q rest ih =>
    intro p hp
    obtain ⟨b, s⟩ := q
    simp only [lruGet] at h
    split_ifs at h with hb
    cases hp with
    | head => exact hb
    | tail _ hmem =>
      cases hrec : lruGet rest key with
      | some x =>
        simp only [hrec] at h
        exact Option.noConfusion h
      | none =>
        exact ih hrec p hmem

theorem lruGet_some_perm (lru : List (Nat × Nat)) (key s : Nat)
    (rest : List (Nat × Nat)) (h : lruGet lru key = some (s, rest)) :
    lru.Perm ((key, s) :: rest) := by
  induction lru generalizing rest with
  | nil => cases h
  | cons q t ih =>
    obtain ⟨b, s0⟩ := q
    simp only [lruGet] at h
    split_ifs at h with hb
    · simp only [Option.some.injEq, Prod.mk.injEq] at h
      subst hb
      rw [← h.1, ← h.2]
    · cases hrec : lruGet t key with
      | none =>
        simp only [hrec] at h
        exact Option.noConfusion h
      | some x =>
        obtain ⟨s', t'⟩ := x
        simp only [hrec, Option.some.injEq, Prod.mk.injEq] at h
        obtain ⟨hs, hrest⟩ := h
        subst hs
        subst hrest
        exact (List.Perm.cons _ (ih t' hrec)).trans (List.Perm.swap _ _ _)

theorem getD_set_self (l : List (List Nat)) (i : Nat) (v : List Nat)
    (h : i < l.length) : (l.set i v).getD i [] = v := by
  rw [List.getD_eq_getElem?_getD, List.getElem?_set_self (by simpa using h)]
  rfl

theorem getD_set_ne (l : List (List Nat)) (i j : Nat) (v : List Nat)
    (h : i ≠ j) : (l.set i v).getD j [] = l.getD j [] := by
  rw [List.getD_eq_getElem?_getD, List.getElem?_set_ne h,
    ← List.getD_eq_getElem?_getD]

/-- One read_block on a cache satisfying the invariant: the call succeeds,
returns exactly the source bytes of the block, preserves the invariant and
the capacity, and, on a miss with no free slot, evicts exactly the least
recently used entry and reuses its slot. -/
theorem read_block_spec_aux (src : Nat → Nat) (c : Cache) (b : Nat)
    (hInv : CacheInv src c) (hslot : 0 < c.slotCount) :
    ∃ c', c.read_block src b = .ok (srcBlock src b, c') ∧ CacheInv src c' ∧
      c'.byteSize = c.byteSize ∧ c'.lru_cache.length ≤ c.slotCount ∧
      (lruGet c.lru_cache b = none → c.empty_blocks = [] →
        ∃ pLast, lruPopLru c.lru_cache = some (pLast, c.lru_cache.dropLast) ∧
          c'.lru_cache = (b, pLast.2) :: c.lru_cache.dropLast ∧
          pLast.1 ∉ c'.lru_cache.map Prod.fst) := by
  obtain ⟨hdata, hentries, hkeys, hperm⟩ := hInv
  have hlen_bound : ∀ c' : Cache,
      (c'.lru_cache.map Prod.snd ++ c'.empty_blocks).Perm
        (List.range c'.slotCount) → c'.slotCount = c.slotCount →
      c'.lru_cache.length ≤ c.slotCount := by
    intro c' hp hsc
    have := hp.length_eq
    simp only [List.length_append, List.length_map, List.length_range] at this
    omega
  cases hget : lruGet c.lru_cache b with
  | some x =>
    obtain ⟨index, lru'⟩ := x
    have hperm2 := lruGet_some_perm _ _ _ _ hget
    have hmem : (b, index) ∈ c.lru_cache :=
      hperm2.mem_iff.mpr (List.mem_cons_self _ _)
    have hInv' : CacheInv src
        { c with lru_cache := (b, index) :: lru' } := by
      refine ⟨hdata, ?_, ?_, ?_⟩
      · intro p hp
        exact hentries p (hperm2.mem_iff.mpr hp)
      · exact (hperm2.map Prod.fst).nodup hkeys
      · exact ((hperm2.map Prod.snd).symm.append_right _).trans hperm
    refine ⟨_, ?_, hInv', rfl, ?_, ?_⟩
    · simp only [Cache.read_block, hget]
      rw [hentries _ hmem]
    · exact hlen_bound _ hInv'.2.2.2 rfl
    · intro hnone
      exact absurd hnone (by simp)
  | none =>
    have hbnot : b ∉ c.lru_cache.map Prod.fst := by
      intro hin
      obtain ⟨p, hp, hfst⟩ := List.mem_map.mp hin
      exact lruGet_none _ _ hget p hp hfst
    have hnodupslots : (c.lru_cache.map Prod.snd ++ c.empty_blocks).Nodup :=
      hperm.symm.nodup (List.nodup_range _)
    cases hempty : c.empty_blocks with
    | cons i rest =>
      have hens : c.ensure_empty_block = some (i, c.lru_cache, rest) := by
        simp [Cache.ensure_empty_block, hempty]
      have hi_lt : i < c.slotCount := by
        have : i ∈ List.range c.slotCount :=
          hperm.mem_iff.mp
            (List.mem_append_right _ (by rw [hempty]; exact List.mem_cons_self _ _))
        exact List.mem_range.mp this
      have hi_not_in_snd : i ∉ c.lru_cache.map Prod.snd := by
        intro hin
        exact List.disjoint_of_nodup_append hnodupslots hin
          (by rw [hempty]; exact List.mem_cons_self _ _)
      have hInv' : CacheInv src
          { c with
            data := c.data.set i (srcBlock src b)
            lru_cache := (b, i) :: c.lru_cache
            empty_blocks := rest } := by
      
        refine ⟨by simpa using hdata, ?_, ?_, ?_⟩
        · intro p hp
          cases hp with
          | head =>
            exact getD_set_self _ _ _ (by rw [hdata]; exact hi_lt)
          | tail _ hmem =>
            have hne : i ≠ p.2 := by
              intro heq
              exact hi_not_in_snd (heq ▸ List.mem_map_of_mem Prod.snd hmem)
            rw [getD_set_ne _ _ _ _ hne]
            exact hentries p hmem
        · simp only [List.map_cons]
          exact List.nodup_cons.mpr ⟨hbnot, hkeys⟩
        · simp only [List.map_cons, List.cons_append]
          refine List.Perm.trans ?_ hperm
          rw [hempty]
          exact List.perm_middle.symm
      refine ⟨_, ?_, hInv', rfl, ?_, ?_⟩
      · simp only [Cache.read_block, hget, hens]
      · exact hlen_bound _ hInv'.2.2.2 rfl
      · intro _ hcontr
        exact absurd hcontr (by simp)
    | nil =>
      have hlru_ne : c.lru_cache ≠ [] := by
        intro hnil
        have hlen := hperm.length_eq
        rw [hnil, hempty] at hlen
        simp only [List.map_nil, List.nil_append, List.length_nil,
          List.length_range] at hlen
        omega
      have hlast := List.getLast?_eq_getLast c.lru_cache hlru_ne
      have hsplitlru := List.dropLast_append_getLast hlru_ne
      set pLast := c.lru_cache.getLast hlru_ne with hpLast
      have hpop : lruPopLru c.lru_cache =
          some (pLast, c.lru_cache.dropLast) := by
        simp [lruPopLru, hlast]
      have hens : c.ensure_empty_block =
          some (pLast.2, c.lru_cache.dropLast, []) := by
        simp only [Cache.ensure_empty_block, hempty, lruPopLru, hlast]
      have hsnd_split : c.lru_cache.map Prod.snd =
          c.lru_cache.dropLast.map Prod.snd ++ [pLast.2] := by
        conv_lhs => rw [← hsplitlru]
        simp
      have hfst_split : c.lru_cache.map Prod.fst =
          c.lru_cache.dropLast.map Prod.fst ++ [pLast.1] := by
        conv_lhs => rw [← hsplitlru]
        simp
      have hsnd_nodup : (c.lru_cache.map Prod.snd).Nodup := by
        rw [hempty] at hnodupslots
        simpa using hnodupslots
      have hlast_snd_notin : pLast.2 ∉ c.lru_cache.dropLast.map Prod.snd := by
        rw [hsnd_split] at hsnd_nodup
        have := List.disjoint_of_nodup_append hsnd_nodup
        intro hin
        exact this hin (List.mem_cons_self _ _)
      have hlast_fst_notin : pLast.1 ∉ c.lru_cache.dropLast.map Prod.fst := by
        rw [hfst_split] at hkeys
        have := List.disjoint_of_nodup_append hkeys
        intro hin
        exact this hin (List.mem_cons_self _ _)
      have hkeys_drop : (c.lru_cache.dropLast.map Prod.fst).Nodup := by
        have hsub : (c.lru_cache.dropLast.map Prod.fst).Sublist
            (c.lru_cache.map Prod.fst) :=
          List.Sublist.map _ (List.dropLast_sublist _)
        exact hsub.nodup hkeys
      have hlast_lt : pLast.2 < c.slotCount := by
        have : pLast.2 ∈ List.range c.slotCount := by
          refine hperm.mem_iff.mp (List.mem_append.mpr (Or.inl ?_))
          rw [hsnd_split]
          exact List.mem_append_right _ (List.mem_cons_self _ _)
        exact List.mem_range.mp this
      have hbnot_drop : b ∉ c.lru_cache.dropLast.map Prod.fst := by
        intro hin
        refine hbnot ?_
        rw [hfst_split]
        exact List.mem_append.mpr (Or.inl hin)
      have hInv' : CacheInv src
          { c with
            data := c.data.set pLast.2 (srcBlock src b)
            lru_cache := (b, pLast.2) :: c.lru_cache.dropLast
            empty_blocks := [] } := by
        refine ⟨by simpa using hdata, ?_, ?_, ?_⟩
        · intro p hp
          cases hp with
          | head =>
            exact getD_set_self _ _ _ (by rw [hdata]; exact hlast_lt)
          | tail _ hmem =>
            have hmem' : p ∈ c.lru_cache := by
              rw [← hsplitlru]
              exact List.mem_append.mpr (Or.inl hmem)
            have hne : pLast.2 ≠ p.2 := by
              intro heq
              exact hlast_snd_notin (heq ▸ List.mem_map_of_mem Prod.snd hmem)
            rw [getD_set_ne _ _ _ _ hne]
            exact hentries p hmem'
        · simp only [List.map_cons]
          exact List.nodup_cons.mpr ⟨hbnot_drop, hkeys_drop⟩
        · simp only [List.map_cons, List.append_nil]
          refine List.Perm.trans ?_ hperm
          rw [hempty]
          simp only [List.append_nil]
          rw [hsnd_split]
          exact (List.perm_append_singleton _ _).symm
      refine ⟨_, ?_, hInv', rfl, ?_, ?_⟩
      · simp only [Cache.read_block, hget, hens]
      · exact hlen_bound _ hInv'.2.2.2 rfl
      · intro _ _
        refine ⟨pLast, hpop, rfl, ?_⟩
        simp only [List.map_cons]
        intro hin
        rcases List.mem_cons.mp hin with heq | hmem
        · refine hbnot ?_
          rw [hfst_split, ← heq]
          exact List.mem_append_right _ (List.mem_cons_self _ _)
        · exact hlast_fst_notin hmem


theorem runReads_inv (src : Nat → Nat) (bs : List Nat) (c : Cache)
    (hInv : CacheInv src c) (hslot : 0 < c.slotCount) :
    CacheInv src (runReads src bs c) ∧
      (runReads src bs c).byteSize = c.byteSize := by
  induction bs generalizing c with
  | nil => exact ⟨hInv, rfl⟩
  | cons b rest ih =>
    obtain ⟨c', hok, hInv', hsize, _, _⟩ := read_block_spec_aux src c b hInv hslot
    simp only [runReads, hok]
    have hslot' : 0 < c'.slotCount := by
      unfold Cache.slotCount
      rw [hsize]
      exact hslot
    obtain ⟨h1, h2⟩ := ih c' hInv' hslot'
    exact ⟨h1, by rw [h2, hsize]⟩

/-- C2: over an error-free block source, after ANY sequence of read_block
calls on a cache of byte capacity n: the next read_block of any block b
succeeds and returns exactly the 2048 source bytes at byte offset b*2048;
the block-to-slot map never holds more than n/2048 entries (both before
and after the call); and a miss that occurs when no slot is free evicts
exactly the least-recently-used cached block (the last entry of the
MRU-first list), whose mapping disappears, and reuses its slot for b. -/
theorem cache_read_block_spec (n : Nat) (src : Nat → Nat) (bs : List Nat)
    (b : Nat) (hn : 0 < n / DVDCSS_BLOCK_SIZE) :
    ∃ c', (runReads src bs (Cache.new n)).read_block src b =
        .ok (srcBlock src b, c') ∧
      c'.lru_cache.length ≤ n / DVDCSS_BLOCK_SIZE ∧
      (runReads src bs (Cache.new n)).lru_cache.length ≤ n / DVDCSS_BLOCK_SIZE ∧
      (lruGet (runReads src bs (Cache.new n)).lru_cache b = none →
        (runReads src bs (Cache.new n)).empty_blocks = [] →
        ∃ pLast, lruPopLru (runReads src bs (Cache.new n)).lru_cache =
            some (pLast, (runReads src bs (Cache.new n)).lru_cache.dropLast) ∧
          c'.lru_cache = (b, pLast.2) ::
            (runReads src bs (Cache.new n)).lru_cache.dropLast ∧
          pLast.1 ∉ c'.lru_cache.map Prod.fst) := by
  have hnew : CacheInv src (Cache.new n) := CacheInv_new src n
  have hslot0 : (0 : Nat) < (Cache.new n).slotCount := by
    simpa [Cache.new, Cache.slotCount] using hn
  obtain ⟨hInvSt, hsizeSt⟩ := runReads_inv src bs (Cache.new n) hnew hslot0
  have hscSt : (runReads src bs (Cache.new n)).slotCount = n / DVDCSS_BLOCK_SIZE := by
    unfold Cache.slotCount
    rw [hsizeSt]
    rfl
  have hslotSt : 0 < (runReads src bs (Cache.new n)).slotCount := by
    rw [hscSt]
    exact hn
  obtain ⟨c', hok, _, _, hlen', hev⟩ :=
    read_block_spec_aux src _ b hInvSt hslotSt
  refine ⟨c', hok, ?_, ?_, hev⟩
  · rw [hscSt] at hlen'
    exact hlen'
  · have hp := hInvSt.2.2.2.length_eq
    simp only [List.length_append, List.length_map, List.length_range] at hp
    omega

/-- Witness for C2 at a concrete input: a one-slot cache (2048 bytes) over
the all-zero source, empty call history, reading block 0. -/
theorem cache_read_block_spec_witness :
    (0 : Nat) < 2048 / DVDCSS_BLOCK_SIZE ∧
    (∃ c', (runReads (fun _ => 0) [] (Cache.new 2048)).read_block (fun _ => 0) 0 =
        .ok (srcBlock (fun _ => 0) 0, c') ∧
      c'.lru_cache.length ≤ 2048 / DVDCSS_BLOCK_SIZE ∧
      (runReads (fun _ => 0) [] (Cache.new 2048)).lru_cache.length ≤
        2048 / DVDCSS_BLOCK_SIZE ∧
      (lruGet (runReads (fun _ => 0) [] (Cache.new 2048)).lru_cache 0 = none →
        (runReads (fun _ => 0) [] (Cache.new 2048)).empty_blocks = [] →
        ∃ pLast, lruPopLru (runReads (fun _ => 0) [] (Cache.new 2048)).lru_cache =
            some (pLast, (runReads (fun _ => 0) [] (Cache.new 2048)).lru_cache.dropLast) ∧
          c'.lru_cache = (0, pLast.2) ::
            (runReads (fun _ => 0) [] (Cache.new 2048)).lru_cache.dropLast ∧
          pLast.1 ∉ c'.lru_cache.map Prod.fst)) :=
  ⟨by decide, cache_read_block_spec 2048 (fun _ => 0) [] 0 (by decide)⟩


/-! Directory traversal (run_on_directory in src/main.rs).  The recursion
and branching structure are taken from the source; the I/O pipeline that
produces a directory's entry list — read_file_entries on the ICB address
followed by read_directory_contents, both embedded above — is abstracted
by a listing function `dir : LongAd → List FileIdentifierDescriptor`, and
the byte-copy sink by recording the file path (the Rust
`path.join("/") + "/" + name`, kept as the list of name components, each
a decoded dstring).  `run_on_directory` carries fuel, with `none` playing
the role of non-termination of the Rust recursion; the claim-C10 theorem
shows tree-bounded inputs never exhaust it. -/

mutual

/-- run_on_directory in src/main.rs: list the directory at the ICB address
and process its entries. -/
def run_on_directory (dir : LongAd → List FileIdentifierDescriptor) :
    Nat → LongAd → List (List Char) → Option (List (List (List Char)))
  | 0, _, _ => none
  | fuel + 1, icb_address, path => run_on_entries dir fuel (dir icb_address) path

/-- The per-entry loop of run_on_directory: entries with the PARENT bit
are skipped (the Rust `continue` guarding against the ascending loop);
entries with the DIRECTORY bit recurse into their ICB with the name pushed
on the path; all other entries are files whose path is emitted. -/
def run_on_entries (dir : LongAd → List FileIdentifierDescriptor) :
    Nat → List FileIdentifierDescriptor → List (List Char) →
    Option (List (List (List Char)))
  | _, [], _ => some []
  | fuel, file_identifier_descriptor :: rest, path =>
    if file_identifier_descriptor.file_characteristics &&&
        FileIdentifierDescriptor.FILE_CHARACTERISTIC_PARENT ≠ 0 then
      run_on_entries dir fuel rest path
    else if file_identifier_descriptor.file_characteristics &&&
        FileIdentifierDescriptor.FILE_CHARACTERISTIC_DIRECTORY ≠ 0 then
      match run_on_directory dir fuel file_identifier_descriptor.icb
          (path ++ [osta.decode file_identifier_descriptor.file_identifier]) with
      | some sub =>
        match run_on_entries dir fuel rest path with
        | some more => some (sub ++ more)
        | none => none
      | none => none
    else
      match run_on_entries dir fuel rest path with
      | some more =>
        some ((path ++ [osta.decode file_identifier_descriptor.file_identifier]) :: more)
      | none => none

end

/-- A directory graph is tree-bounded at depth d + 1 from an address when
every non-PARENT subdirectory entry is tree-bounded at depth d: this is
the claim's well-formed finite directory tree, whose parent links occur
only via PARENT-flagged entries (which the bound ignores, as the traversal
skips them). -/
inductive DirBounded (dir : LongAd → List FileIdentifierDescriptor) :
    Nat → LongAd → Prop where
  | mk : ∀ (d : Nat) (icb_address : LongAd),
      (∀ fid ∈ dir icb_address,
        fid.file_characteristics &&&
          FileIdentifierDescriptor.FILE_CHARACTERISTIC_PARENT = 0 →
        fid.file_characteristics &&&
          FileIdentifierDescriptor.FILE_CHARACTERISTIC_DIRECTORY ≠ 0 →
        DirBounded dir d fid.icb) →
      DirBounded dir (d + 1) icb_address

theorem run_on_directory_terminates (dir : LongAd → List FileIdentifierDescriptor)
    (d : Nat) (icb : LongAd) (h : DirBounded dir d icb) :
    ∀ fuel path, d ≤ fuel →
      ∃ r, run_on_directory dir fuel icb path = some r := by
  induction h with
  | mk d icb hch ih =>
    intro fuel path hle
    obtain ⟨f', rfl⟩ : ∃ f', fuel = f' + 1 := ⟨fuel - 1, by omega⟩
    have hd : d ≤ f' := by omega
    have hinner : ∀ entries, (∀ fid ∈ entries, fid ∈ dir icb) →
        ∀ path', ∃ r, run_on_entries dir f' entries path' = some r := by
      intro entries
      induction entries with
      | nil =>
        intro _ path'
        exact ⟨[], by simp [run_on_entries]⟩
      | cons fid rest ihr =>
        intro hsub path'
        obtain ⟨r_rest, hrest⟩ :=
          ihr (fun f hf => hsub f (List.mem_cons_of_mem _ hf)) path'
        by_cases hpar : fid.file_characteristics &&&
            FileIdentifierDescriptor.FILE_CHARACTERISTIC_PARENT ≠ 0
        · refine ⟨r_rest, ?_⟩
          simp only [run_on_entries]
          rw [if_pos hpar]
          exact hrest
        · have hpar0 : fid.file_characteristics &&&
              FileIdentifierDescriptor.FILE_CHARACTERISTIC_PARENT = 0 := by
            rw [ne_eq, not_not] at hpar
            exact hpar
          by_cases hdir : fid.file_characteristics &&&
              FileIdentifierDescriptor.FILE_CHARACTERISTIC_DIRECTORY ≠ 0
          · obtain ⟨r_sub, hsub'⟩ :=
              ih fid (hsub fid (List.mem_cons_self _ _)) hpar0 hdir f'
                (path' ++ [osta.decode fid.file_identifier]) hd
            refine ⟨r_sub ++ r_rest, ?_⟩
            simp only [run_on_entries]
            rw [if_neg hpar, if_pos hdir, hsub', hrest]
          · refine ⟨(path' ++ [osta.decode fid.file_identifier]) :: r_rest, ?_⟩
            simp only [run_on_entries]
            rw [if_neg hpar, if_neg hdir, hrest]
    obtain ⟨r, hr⟩ := hinner (dir icb) (fun _ hf => hf) path
    refine ⟨r, ?_⟩
    simp only [run_on_directory]
    exact hr

/-- C10: the traversal never recurses into an entry whose
file_characteristics has the PARENT bit (0x08): such an entry is skipped
outright (first conjunct: its subtree and name contribute nothing to the
result, whatever they are); and on every well-formed directory tree
(finite unfolding, parent links only via the skipped PARENT entries) the
traversal terminates: with any fuel at least the tree depth the fuelled
recursion completes (second conjunct), so the Rust recursion takes
finitely many steps. -/
theorem run_on_directory_spec :
    (∀ (dir : LongAd → List FileIdentifierDescriptor) (fuel : Nat)
      (fid : FileIdentifierDescriptor) (rest : List FileIdentifierDescriptor)
      (path : List (List Char)),
      fid.file_characteristics &&&
        FileIdentifierDescriptor.FILE_CHARACTERISTIC_PARENT ≠ 0 →
      run_on_entries dir fuel (fid :: rest) path =
        run_on_entries dir fuel rest path) ∧
    (∀ (dir : LongAd → List FileIdentifierDescriptor) (d : Nat) (icb : LongAd),
      DirBounded dir d icb → ∀ fuel path, d ≤ fuel →
        ∃ r, run_on_directory dir fuel icb path = some r) := by
  constructor
  · intro dir fuel fid rest path hpar
    simp only [run_on_entries]
    rw [if_pos hpar]
  · intro dir d icb h fuel path hle
    exact run_on_directory_terminates dir d icb h fuel path hle

/-- Witness for C10 at a concrete input: a PARENT-flagged entry is skipped
in an arbitrary listing, and the traversal of the empty directory
terminates with one unit of fuel. -/
theorem run_on_directory_spec_witness :
    (run_on_entries (fun _ => [])
        1 [{ (default : FileIdentifierDescriptor) with file_characteristics := 10 }] [] =
      run_on_entries (fun _ => []) 1 [] []) ∧
    (∃ r, run_on_directory (fun _ => []) 1 default [] = some r) :=
  ⟨run_on_directory_spec.1 (fun _ => []) 1 _ [] [] (by decide),
    run_on_directory_spec.2 (fun _ => []) 1 default
      (DirBounded.mk 0 default (fun fid hf => absurd hf (by simp)))
      1 [] (by decide)⟩


end Dvdromcopy
